import Mathlib

/-!
# cli-string-designer: screen buffer, click routing and export

A shallow embedding of `main.go`.  The package-level variables of the program
(`cells`, `maxUsedX`, `maxUsedY`, `selectedBackground`, `selectedForeground`,
`selectedWord`, `words`) become the fields of `Screen` and `State`, and every
function that mutates them takes the old value and returns the new one.

Conventions of the embedding

* Go `int` values are `Int`.  Division and remainder are the truncating
  `Int.tdiv` and `Int.tmod`.  The palette index computed from the raw pointer
  coordinates is reduced to the 64-bit two's complement range with `wrapInt`,
  because the coordinates are the only unbounded input of that arithmetic.
* `termbox.Attribute` is an unsigned integer type of the termbox library and is
  embedded as `Nat`; `ColorDefault`, `ColorBlue` and `AttrBold` carry the values
  the library gives them.
* A Go `string` holding valid UTF-8 is a Lean `String`: `len(s)` is
  `String.utf8ByteSize`, `[]rune(s)` is `String.toList`.
* `runewidth.RuneWidth` is a function of the go-runewidth library.  Every
  definition that calls it takes it as the parameter `rw`.
* The calls into the live terminal (`termbox.Clear`, `termbox.SetCell`,
  `termbox.Flush`) do not touch the program's own variables and are omitted.
-/

namespace CliStringDesigner

/-! ## Constants and data model -/

/-- The type `termbox.Attribute`. -/
abbrev Attribute := Nat

/-- The library constant `termbox.ColorDefault`. -/
def ColorDefault : Attribute := 0

/-- The library constant `termbox.ColorBlue`. -/
def ColorBlue : Attribute := 5

/-- The library constant `termbox.AttrBold`, the bit `1 << 9`. -/
def AttrBold : Attribute := 512

def colorsPerRow : Int := 8

def blockWidth : Int := 4

def screenW : Int := 120

def screenH : Int := 50

/-- Cell keeps track of what was drawn at each position. -/
structure Cell where
  Ch : Char
  Fg : Attribute
  Bg : Attribute
  deriving DecidableEq, Repr

/-- Word holds the data for a clickable word of the preview. -/
structure Word where
  Text : String
  Fg : Attribute
  Bg : Attribute
  X : Int
  Y : Int
  W : Int
  deriving DecidableEq, Repr

/-- The drawing buffer: the variables `cells`, `maxUsedX` and `maxUsedY`. -/
structure Screen where
  cells : List (List Cell)
  maxUsedX : Int
  maxUsedY : Int
  deriving DecidableEq, Repr

/-- All package-level variables of the program. -/
structure State where
  scr : Screen
  selectedBackground : Attribute
  selectedForeground : Attribute
  selectedWord : Int
  words : List Word
  deriving DecidableEq, Repr

/-- Reduction of an integer to the range of a 64-bit signed Go `int`. -/
def wrapInt (z : Int) : Int := (z + 2 ^ 63) % 2 ^ 64 - 2 ^ 63

/-- The read `cells[y][x]`; `none` stands for the index-out-of-range failure. -/
def cellAt (scr : Screen) (x y : Nat) : Option Cell :=
  match scr.cells[y]? with
  | none => none
  | some row => row[x]?

/-- The grid has the dimensions `main` allocates: `screenH` rows of `screenW` cells. -/
def Screen.WellFormed (scr : Screen) : Prop :=
  (scr.cells.length : Int) = screenH ∧ ∀ row ∈ scr.cells, (row.length : Int) = screenW

/-! ## setCell and drawWord -/

/-- The function `setCell`.  The grid is allocated once with `screenH` rows of
`screenW` cells, so the store `cells[y][x] = ...` behind the bounds test is an
update of an existing position. -/
def setCell (scr : Screen) (x y : Int) (ch : Char) (fg bg : Attribute) : Screen :=
  if x < 0 ∨ x ≥ screenW ∨ y < 0 ∨ y ≥ screenH then scr
  else
    { cells := scr.cells.set y.toNat
        (((scr.cells[y.toNat]?).getD []).set x.toNat { Ch := ch, Fg := fg, Bg := bg })
      maxUsedX := if x > scr.maxUsedX then x else scr.maxUsedX
      maxUsedY := if y > scr.maxUsedY then y else scr.maxUsedY }

/-- The loop over the runes of `drawWord`; the inner loop `for i := 1; i < w; i++`
fills the extra columns of a wide rune with spaces. -/
def drawWordRunes (rw : Char → Nat) (y : Int) (fg bg : Attribute) :
    List Char → Screen → Int → Screen × Int
  | [], scr, x => (scr, x)
  | r :: rs, scr, x =>
    let w : Int := (rw r : Int)
    let scr1 := setCell scr x y r fg bg
    let scr2 := (List.range (rw r - 1)).foldl
      (fun s k => setCell s (x + ((k : Int) + 1)) y ' ' fg bg) scr1
    drawWordRunes rw y fg bg rs scr2 (x + w)

/-- The function `drawWord`: the new buffer and the returned column. -/
def drawWord (rw : Char → Nat) (scr : Screen) (x y : Int) (text : String)
    (fg bg : Attribute) : Screen × Int :=
  drawWordRunes rw y fg bg text.toList scr x

/-! ## redrawAll -/

/-- The loop `for len(numStr) < 3 { numStr = " " + numStr }`.  Each round adds one
byte, so three rounds of fuel are never exhausted. -/
def padLabel : Nat → String → String
  | 0, s => s
  | fuel + 1, s => if s.utf8ByteSize < 3 then padLabel fuel (" " ++ s) else s

/-- The pairs a Go `for dx, r := range s` visits: byte offset and rune. -/
def rangeString : Int → List Char → List (Int × Char)
  | _, [] => []
  | off, c :: cs => (off, c) :: rangeString (off + (c.utf8Size : Int)) cs

/-- The loop `for dx, r := range numStr { setCell(x+dx, y, r, fg, bg) }`. -/
def drawLabel (scr : Screen) (x y : Int) (numStr : String) (fg bg : Attribute) : Screen :=
  (rangeString 0 numStr.toList).foldl (fun s p => setCell s (x + p.1) y p.2 fg bg) scr

/-- One round of the loop painting the background colour blocks. -/
def backgroundBlock (selectedForeground : Attribute) (scr : Screen) (i : Nat) : Screen :=
  let x := ((i : Int).tmod colorsPerRow) * blockWidth
  let y := (i : Int).tdiv colorsPerRow
  let bg : Attribute := i + 1
  let fg := selectedForeground
  drawLabel scr x y (padLabel 3 (toString (i : Int))) fg bg

/-- One round of the loop painting the foreground colour blocks. -/
def foregroundBlock (selectedBackground : Attribute) (scr : Screen) (i : Nat) : Screen :=
  let x := ((i : Int).tmod colorsPerRow) * blockWidth + 32
  let y := (i : Int).tdiv colorsPerRow
  let fg : Attribute := i + 1
  let bg := selectedBackground
  drawLabel scr x y (padLabel 3 (toString (i : Int))) fg bg

/-- The row the words are placed on, `wordY := 32 + 1`. -/
def wordY : Int := 32 + 1

/-- The loop `for i := range words` of `redrawAll`: `i` is the index of the head of
the remaining words and `curX` the running column. -/
def placeWords (rw : Char → Nat) (selectedWord : Int) :
    Nat → List Word → Screen → Int → List Word × Screen
  | _, [], scr, _ => ([], scr)
  | i, w :: ws, scr, curX =>
    let w1 : Word := { w with X := curX, Y := wordY, W := (w.Text.utf8ByteSize : Int) }
    let displayFg := w1.Fg
    let displayBg :=
      if (i : Int) = selectedWord then
        (if w1.Bg = ColorDefault then ColorBlue else w1.Bg ||| AttrBold)
      else w1.Bg
    let r := drawWord rw scr curX wordY w1.Text displayFg displayBg
    let rest := placeWords rw selectedWord (i + 1) ws r.1 (r.2 + 1)
    (w1 :: rest.1, rest.2)

/-- The function `redrawAll`. -/
def redrawAll (rw : Char → Nat) (s : State) : State :=
  let scr1 := (List.range 256).foldl (backgroundBlock s.selectedForeground) s.scr
  let scr2 := (List.range 256).foldl (foregroundBlock s.selectedBackground) scr1
  let r := placeWords rw s.selectedWord 0 s.words scr2 1
  { s with scr := r.2, words := r.1 }

/-! ## handleMouseClick -/

/-- The store `words[k].field = v`, written as an update of position `k`. -/
def modifyWord (f : Word → Word) : Nat → List Word → List Word
  | _, [] => []
  | 0, w :: ws => f w :: ws
  | k + 1, w :: ws => w :: modifyWord f k ws

/-- The loop `for i := range words` of `handleMouseClick`: the index of the first
word whose recorded span contains the click. -/
def findWord (mx my : Int) : Nat → List Word → Option Nat
  | _, [] => none
  | i, w :: ws =>
    if my = w.Y ∧ (mx ≥ w.X ∧ mx < w.X + w.W) then some i
    else findWord mx my (i + 1) ws

/-- The palette index `my*colorsPerRow + (mx / blockWidth)` as a Go `int`. -/
def colIndexOf (mx my : Int) : Int :=
  wrapInt (wrapInt (my * colorsPerRow) + mx.tdiv blockWidth)

/-- The background region of `handleMouseClick`; `none` when control falls
through to the next test. -/
def clickBackground (rw : Char → Nat) (s : State) (mx my : Int) : Option State :=
  let bgMaxRow : Int := Int.tdiv 256 colorsPerRow
  if mx < 32 ∧ my < bgMaxRow then
    let colIndex := colIndexOf mx my
    if colIndex ≥ 0 ∧ colIndex < 256 then
      let clickedColor : Attribute := (colIndex + 1).toNat
      if s.selectedWord ≥ 0 ∧ s.selectedWord < s.words.length then
        let ws := modifyWord (fun w => { w with Bg := clickedColor }) s.selectedWord.toNat s.words
        some (redrawAll rw { s with words := ws })
      else
        some (redrawAll rw { s with selectedBackground := clickedColor })
    else none
  else none

/-- The foreground region of `handleMouseClick`; `none` when control falls
through to the word scan. -/
def clickForeground (rw : Char → Nat) (s : State) (mx my : Int) : Option State :=
  let bgMaxRow : Int := Int.tdiv 256 colorsPerRow
  if mx ≥ 32 ∧ mx < 64 ∧ my < bgMaxRow then
    let colIndex := colIndexOf (mx - 32) my
    if colIndex ≥ 0 ∧ colIndex < 256 then
      let clickedColor : Attribute := (colIndex + 1).toNat
      if s.selectedWord ≥ 0 ∧ s.selectedWord < s.words.length then
        let ws := modifyWord (fun w => { w with Fg := clickedColor }) s.selectedWord.toNat s.words
        some (redrawAll rw { s with words := ws })
      else
        some (redrawAll rw { s with selectedForeground := clickedColor })
    else none
  else none

/-- The function `handleMouseClick`. -/
def handleMouseClick (rw : Char → Nat) (s : State) (mx my : Int) : State :=
  match clickBackground rw s mx my with
  | some s1 => s1
  | none =>
    match clickForeground rw s mx my with
    | some s2 => s2
    | none =>
      match findWord mx my 0 s.words with
      | some i => redrawAll rw { s with selectedWord := (i : Int) }
      | none => redrawAll rw { s with selectedWord := -1 }

/-! ## Start-up -/

/-- The blank cell `main` fills the grid with. -/
def blankCell : Cell := { Ch := ' ', Fg := ColorDefault, Bg := ColorDefault }

/-- The grid `main` allocates, with both running maxima at their zero value. -/
def initScreen : Screen :=
  { cells := List.replicate screenH.toNat (List.replicate screenW.toNat blankCell)
    maxUsedX := 0
    maxUsedY := 0 }

/-- The loop of `main` creating one `Word` per command-line argument. -/
def initWords (args : List String) : List Word :=
  args.map (fun arg => { Text := arg, Fg := ColorDefault, Bg := ColorDefault, X := 0, Y := 0, W := 0 })

/-- The variables when `main` reaches its first `redrawAll`. -/
def initState (args : List String) : State :=
  { scr := initScreen
    selectedBackground := ColorDefault
    selectedForeground := ColorDefault
    selectedWord := -1
    words := initWords args }

/-- A sample of the width table of go-runewidth for concrete evaluations: control
characters have width 0, kana, CJK unified ideographs and Hangul syllables have
width 2, every other rune has width 1. -/
def sampleRuneWidth (c : Char) : Nat :=
  let n := c.toNat
  if n < 32 ∨ (127 ≤ n ∧ n < 160) then 0
  else if (0x3041 ≤ n ∧ n ≤ 0x30FF) ∨ (0x4E00 ≤ n ∧ n ≤ 0x9FFF) ∨ (0xAC00 ≤ n ∧ n ≤ 0xD7A3) then 2
  else 1

/-! ## printSnippet -/

/-- One round of the loop of `printSnippet`: what the word appends to the builder. -/
def snippetWord (snippet : String) (w : Word) : String :=
  let fgAttr : Int := (w.Fg : Int) - 1
  let bgAttr : Int := (w.Bg : Int) - 1
  let snippet1 :=
    if w.Fg ≠ ColorDefault then
      let fgAttr := if fgAttr < 0 then 0 else if fgAttr > 255 then 255 else fgAttr
      snippet ++ ("$\x7bC" ++ toString fgAttr ++ "\x7d")
    else snippet
  let snippet2 :=
    if w.Bg ≠ ColorDefault then
      let bgAttr := if bgAttr < 0 then 0 else if bgAttr > 255 then 255 else bgAttr
      snippet1 ++ ("$\x7bB" ++ toString bgAttr ++ "\x7d")
    else snippet1
  snippet2 ++ (w.Text ++ " ")

/-- The function `printSnippet`: the text it prints. -/
def printSnippet (words : List Word) : String :=
  let snippet := "\n\n echo \""
  let snippet := words.foldl snippetWord snippet
  snippet ++ "$\x7bRESET\x7d\"\n\n"

/-! ## toANSI256 and dumpScreenAsANSI -/

/-- The function `toANSI256`; `fmt.Sprintf` with the verb `%d` prints the decimal
digits of the clamped value. -/
def toANSI256 (attr : Attribute) (isFg : Bool) : String :=
  if attr = ColorDefault then
    if isFg then "\x1b[39m" else "\x1b[49m"
  else
    let c : Int := (attr : Int) - 1
    let c := if c < 0 then 0 else c
    let c := if c > 255 then 255 else c
    if isFg then "\x1b[38;5;" ++ toString c ++ "m"
    else "\x1b[48;5;" ++ toString c ++ "m"

/-- One write to the `strings.Builder` of a line, tagged with the statement of
`dumpScreenAsANSI` that issues it. -/
inductive Chunk where
  /-- The write `line.WriteString(toANSI256(c.Fg, true))`. -/
  | fgEsc (s : String)
  /-- The write `line.WriteString(toANSI256(c.Bg, false))`. -/
  | bgEsc (s : String)
  /-- The write `line.WriteRune(c.Ch)`. -/
  | glyph (ch : Char)
  /-- The write of the reset and newline that close the line. -/
  | lineEnd (s : String)
  deriving DecidableEq, Repr

/-- The text a write adds to the builder. -/
def Chunk.str : Chunk → String
  | Chunk.fgEsc s => s
  | Chunk.bgEsc s => s
  | Chunk.glyph ch => String.singleton ch
  | Chunk.lineEnd s => s

/-- The content of the builder, `line.String()`: the writes in order. -/
def renderChunks : List Chunk → String
  | [] => ""
  | c :: cs => c.str ++ renderChunks cs

/-- The loop `for x := 0; x <= maxUsedX; x++` of `dumpScreenAsANSI`, with `n` rounds
left and `x` the current column: the writes to the builder and the final
`prevFg` and `prevBg`, or `none` when a read `cells[y][x]` is out of range. -/
def dumpRowLoop (scr : Screen) (y : Nat) :
    Nat → Nat → Attribute → Attribute → Option (List Chunk × Attribute × Attribute)
  | 0, _, prevFg, prevBg => some ([], prevFg, prevBg)
  | n + 1, x, prevFg, prevBg =>
    match cellAt scr x y with
    | none => none
    | some c =>
      let fgOut := if c.Fg ≠ prevFg then [Chunk.fgEsc (toANSI256 c.Fg true)] else []
      let prevFg1 := if c.Fg ≠ prevFg then c.Fg else prevFg
      let bgOut := if c.Bg ≠ prevBg then [Chunk.bgEsc (toANSI256 c.Bg false)] else []
      let prevBg1 := if c.Bg ≠ prevBg then c.Bg else prevBg
      match dumpRowLoop scr y n (x + 1) prevFg1 prevBg1 with
      | none => none
      | some (rest, f, b) => some (fgOut ++ (bgOut ++ (Chunk.glyph c.Ch :: rest)), f, b)

/-- The loop `for y := 0; y <= maxUsedY; y++` of `dumpScreenAsANSI`, with `n` rounds
left: the builders of the printed lines.  The variables `prevFg` and `prevBg`
live across the rounds and are assigned `ColorDefault` at the top of each. -/
def dumpRows (scr : Screen) :
    Nat → Nat → Attribute → Attribute → Option (List (List Chunk))
  | 0, _, _, _ => some []
  | n + 1, y, _, _ =>
    match dumpRowLoop scr y (scr.maxUsedX + 1).toNat 0 ColorDefault ColorDefault with
    | none => none
    | some (line, prevFg, prevBg) =>
      match dumpRows scr n (y + 1) prevFg prevBg with
      | none => none
      | some rest => some ((line ++ [Chunk.lineEnd "\x1b[0m\n"]) :: rest)

/-- The builders of the lines `dumpScreenAsANSI` prints for the rows `0..maxUsedY`. -/
def dumpLineChunks (scr : Screen) : Option (List (List Chunk)) :=
  dumpRows scr (scr.maxUsedY + 1).toNat 0 ColorDefault ColorDefault

/-- The function `dumpScreenAsANSI`: the texts it prints in order, one per
`fmt.Print`, namely the lines of the rows, the snippet and the final reset;
`none` when a read of `cells` is out of range. -/
def dumpScreenAsANSI (s : State) : Option (List String) :=
  match dumpLineChunks s.scr with
  | none => none
  | some lines => some (lines.map renderChunks ++ [printSnippet s.words, "\x1b[0m"])

/-! ## Vocabulary of the statements -/

/-- The recorded span of the word contains the point `(mx, my)`: the row matches
and the column lies in `[X, X + W)`. -/
def Word.Contains (w : Word) (mx my : Int) : Prop :=
  my = w.Y ∧ w.X ≤ mx ∧ mx < w.X + w.W

instance (w : Word) (mx my : Int) : Decidable (w.Contains mx my) := by
  unfold Word.Contains; infer_instance

/-- The variable `selectedWord` is a valid index into `words`. -/
def State.HasSelection (s : State) : Prop :=
  0 ≤ s.selectedWord ∧ s.selectedWord < s.words.length

instance (s : State) : Decidable s.HasSelection := by
  unfold State.HasSelection; infer_instance

/-- The attribute of the swatch under a palette click: one more than the palette
index `my*8 + mx/4`, with `mx` taken relative to its panel. -/
def swatchAttr (mx my : Int) : Attribute :=
  (my * 8 + (if mx < 32 then mx else mx - 32) / 4 + 1).toNat

/-- The number of display columns of a text: the sum of the widths of its glyphs. -/
def displayWidth (rw : Char → Nat) (text : String) : Int :=
  ((text.toList.map rw).sum : Nat)

/-- Concatenation of a list of strings, in order. -/
def concatAll : List String → String
  | [] => ""
  | s :: ss => s ++ concatAll ss

/-- The contribution of one word to the snippet as the specification words it:
the foreground token with the 0-based index iff the foreground is not Default,
the background token iff the background is not Default, the text, one space. -/
def snippetWordSpec (w : Word) : String :=
  (if w.Fg = ColorDefault then "" else "$\x7bC" ++ toString (w.Fg - 1) ++ "\x7d") ++
  ((if w.Bg = ColorDefault then "" else "$\x7bB" ++ toString (w.Bg - 1) ++ "\x7d") ++
   (w.Text ++ " "))

/-- The snippet as the specification words it. -/
def snippetSpec (words : List Word) : String :=
  "\n\n echo \"" ++ (concatAll (words.map snippetWordSpec) ++ "$\x7bRESET\x7d\"\n\n")

/-- The cells of row `y` in the columns `0..maxUsedX`. -/
def rowCells (scr : Screen) (y : Nat) : List Cell :=
  ((scr.cells[y]?).getD []).take (scr.maxUsedX + 1).toNat

/-- The writes of a line as the specification words them: walking the cells with
a current foreground and background, a colour escape is written for a cell only
when its colour differs from the current one. -/
def rowChunksRef : Attribute → Attribute → List Cell → List Chunk
  | _, _, [] => []
  | curFg, curBg, c :: cs =>
    (if c.Fg = curFg then [] else [Chunk.fgEsc (toANSI256 c.Fg true)]) ++
    ((if c.Bg = curBg then [] else [Chunk.bgEsc (toANSI256 c.Bg false)]) ++
     (Chunk.glyph c.Ch :: rowChunksRef c.Fg c.Bg cs))

/-- The foreground colour escapes of a line, in the order they were written. -/
def fgEscapes : List Chunk → List String
  | [] => []
  | Chunk.fgEsc s :: cs => s :: fgEscapes cs
  | _ :: cs => fgEscapes cs

/-- The background colour escapes of a line, in the order they were written. -/
def bgEscapes : List Chunk → List String
  | [] => []
  | Chunk.bgEsc s :: cs => s :: bgEscapes cs
  | _ :: cs => bgEscapes cs

/-- The number after `38;5;` or `48;5;` in a colour escape, plus one; zero for any
other text.  It reads back the attribute from the escape of a palette colour. -/
def escapeAttr (s : String) : Attribute :=
  match s.data with
  | _ :: _ :: _ :: '8' :: _ :: _ :: _ :: rest =>
    (rest.foldl (fun n ch => if ch.isDigit then 10 * n + (ch.toNat - 48) else n) 0) + 1
  | _ => 0

/-- The encoding of an attribute as the specification words it: Default is the
reset-to-terminal-default escape of the channel, the palette attribute `a` is the
256-colour indexed escape carrying `a - 1` in decimal. -/
def toANSI256Spec (attr : Attribute) (isFg : Bool) : String :=
  if attr = ColorDefault then
    (if isFg then "\x1b[39m" else "\x1b[49m")
  else
    (if isFg then "\x1b[38;5;" else "\x1b[48;5;") ++ (toString (attr - 1) ++ "m")

/-- The arguments of one call of `setCell`. -/
structure SetCellCall where
  x : Int
  y : Int
  ch : Char
  fg : Attribute
  bg : Attribute
  deriving DecidableEq, Repr

/-- The coordinate of the call lies inside the grid. -/
def SetCellCall.InGrid (c : SetCellCall) : Prop :=
  0 ≤ c.x ∧ c.x < screenW ∧ 0 ≤ c.y ∧ c.y < screenH

instance (c : SetCellCall) : Decidable c.InGrid := by
  unfold SetCellCall.InGrid; infer_instance

/-- The buffer after a sequence of `setCell` calls, in order. -/
def runSetCells (scr : Screen) (calls : List SetCellCall) : Screen :=
  calls.foldl (fun s c => setCell s c.x c.y c.ch c.fg c.bg) scr

/-- The largest column among the calls that lie inside the grid, `0` if none. -/
def largestWrittenColumn (calls : List SetCellCall) : Int :=
  ((calls.filter (fun c => decide c.InGrid)).map (fun c => c.x)).foldl max 0

/-- The largest row among the calls that lie inside the grid, `0` if none. -/
def largestWrittenRow (calls : List SetCellCall) : Int :=
  ((calls.filter (fun c => decide c.InGrid)).map (fun c => c.y)).foldl max 0

/-- What every buffer reached by `setCell` calls from the blank grid satisfies. -/
def ReachInv (scr : Screen) : Prop :=
  scr.WellFormed ∧ 0 ≤ scr.maxUsedX ∧ scr.maxUsedX < screenW ∧
  0 ≤ scr.maxUsedY ∧ scr.maxUsedY < screenH ∧
  ∀ px py : Nat, (px : Int) < screenW → (py : Int) < screenH →
    (scr.maxUsedX < px ∨ scr.maxUsedY < py) → cellAt scr px py = some blankCell

/-- The decimal representation of `i` padded on the left with spaces to three
characters. -/
def spacePaddedLabel (i : Nat) : List Char :=
  List.replicate (3 - (toString i).length) ' ' ++ (toString i).toList

/-- The decimal representation of `i` padded on the left with zeros to three
characters. -/
def zeroPaddedLabel (i : Nat) : List Char :=
  List.replicate (3 - (toString i).length) '0' ++ (toString i).toList

/-- The character of position `dx` of the space-padded label of swatch `i`. -/
def labelChar (i dx : Nat) : Char :=
  (spacePaddedLabel i).getD dx ' '

/-- The cell `(px, py)` exists and carries the colours `fg` and `bg`. -/
def Painted (fg bg : Attribute) (scr : Screen) (px py : Nat) : Prop :=
  ∃ c, cellAt scr px py = some c ∧ c.Fg = fg ∧ c.Bg = bg

/-- The columns `drawWord` passes to `setCell` for the runes `rs` drawn from column
`x`: for each rune its own column and the extra columns of a wide rune. -/
def drawnColumns (rw : Char → Nat) : Int → List Char → List Int
  | _, [] => []
  | x, r :: rs =>
    (x :: (List.range (rw r - 1)).map (fun (k : Nat) => x + ((k : Int) + 1)))
      ++ drawnColumns rw (x + (rw r : Int)) rs

/-- The background `redrawAll` paints the word of index `i` with: the highlight
colour or the bold bit for the selected word, the word's own background
otherwise. -/
def displayBackground (selectedWord : Int) (i : Nat) (w : Word) : Attribute :=
  if (i : Int) = selectedWord then
    (if w.Bg = ColorDefault then ColorBlue else w.Bg ||| AttrBold)
  else w.Bg

/-- The coordinate a call of `setCell` is given. -/
def callPos (c : SetCellCall) : Int × Int := (c.x, c.y)

/-- The calls of `setCell` the loop over the characters of a label issues. -/
def labelCalls (x y : Int) (numStr : String) (fg bg : Attribute) : List SetCellCall :=
  (rangeString 0 numStr.toList).map
    (fun p => { x := x + p.1, y := y, ch := p.2, fg := fg, bg := bg })

/-- The calls of `setCell` of one round of the loop over the background blocks. -/
def backgroundBlockCalls (selectedForeground : Attribute) (i : Nat) : List SetCellCall :=
  labelCalls (((i : Int).tmod colorsPerRow) * blockWidth) ((i : Int).tdiv colorsPerRow)
    (padLabel 3 (toString (i : Int))) selectedForeground (i + 1)

/-- The calls of `setCell` of one round of the loop over the foreground blocks. -/
def foregroundBlockCalls (selectedBackground : Attribute) (i : Nat) : List SetCellCall :=
  labelCalls (((i : Int).tmod colorsPerRow) * blockWidth + 32) ((i : Int).tdiv colorsPerRow)
    (padLabel 3 (toString (i : Int))) (i + 1) selectedBackground

/-- The calls of `setCell` that `drawWord` issues for the runes `rs` from column `x`. -/
def runeCalls (rw : Char → Nat) (y : Int) (fg bg : Attribute) :
    List Char → Int → List SetCellCall
  | [], _ => []
  | r :: rs, x =>
    ({ x := x, y := y, ch := r, fg := fg, bg := bg } ::
      (List.range (rw r - 1)).map
        (fun (k : Nat) => { x := x + ((k : Int) + 1), y := y, ch := ' ', fg := fg, bg := bg }))
    ++ runeCalls rw y fg bg rs (x + (rw r : Int))

/-- The calls of `setCell` of the loop over the words of `redrawAll`. -/
def wordCalls (rw : Char → Nat) (selectedWord : Int) : Nat → List Word → Int → List SetCellCall
  | _, [], _ => []
  | i, w :: ws, curX =>
    runeCalls rw wordY w.Fg (displayBackground selectedWord i w) w.Text.toList curX
      ++ wordCalls rw selectedWord (i + 1) ws (curX + displayWidth rw w.Text + 1)

/-- All calls of `setCell` of one `redrawAll`, in order.  They depend on the
selection state and the words, not on the buffer. -/
def redrawCalls (rw : Char → Nat) (s : State) : List SetCellCall :=
  (List.range 256).flatMap (backgroundBlockCalls s.selectedForeground) ++
  ((List.range 256).flatMap (foregroundBlockCalls s.selectedBackground) ++
   wordCalls rw s.selectedWord 0 s.words 1)

/-- The states of a run of `main` with the arguments `args`: the state after the
first `redrawAll`, and the state after each handled click. -/
inductive Reachable (rw : Char → Nat) (args : List String) : State → Prop where
  | start : Reachable rw args (redrawAll rw (initState args))
  | click (s : State) (mx my : Int) :
      Reachable rw args s → Reachable rw args (handleMouseClick rw s mx my)

/-- The buffers `redrawAll` can find when it is called in a run with the arguments
`args`: the blank buffer `main` allocates, or the buffer of a reached state. -/
def PriorGrid (rw : Char → Nat) (args : List String) (scr : Screen) : Prop :=
  scr = initScreen ∨ ∃ s, Reachable rw args s ∧ s.scr = scr

/-- The cells of the buffer are those of the blank buffer, or those of a redraw
of the blank buffer for some state whose words have the texts `args`. -/
def FromBlank (rw : Char → Nat) (args : List String) (scr : Screen) : Prop :=
  scr.WellFormed ∧
  ((∀ px py, cellAt scr px py = cellAt initScreen px py) ∨
   ∃ t : State, t.words.map (fun w => w.Text) = args ∧
     ∀ px py, cellAt scr px py = cellAt (runSetCells initScreen (redrawCalls rw t)) px py)

/-- The state of the run with the arguments `a<TAB>` and `b` after the clicks
`(3, 33)`, `(31, 31)`, `(1, 33)` and `(8, 0)`: the second word gets the background
of palette index 255, the first word the background of index 2 and stays
selected. -/
def tabRun : State :=
  handleMouseClick sampleRuneWidth
    (handleMouseClick sampleRuneWidth
      (handleMouseClick sampleRuneWidth
        (handleMouseClick sampleRuneWidth
          (redrawAll sampleRuneWidth (initState ["a\t", "b"])) 3 33) 31 31) 1 33) 8 0

/-! ## Frame lemmas for redrawAll -/

theorem placeWords_map_Fg (rw : Char → Nat) (sel : Int) (ws : List Word) :
    ∀ (i : Nat) (scr : Screen) (curX : Int),
      (placeWords rw sel i ws scr curX).1.map (fun w => w.Fg) = ws.map (fun w => w.Fg) := by
  induction ws with
  | nil => intro i scr curX; rfl
  | cons w ws ih =>
    intro i scr curX
    simp only [placeWords, List.map_cons, ih]

theorem placeWords_map_Bg (rw : Char → Nat) (sel : Int) (ws : List Word) :
    ∀ (i : Nat) (scr : Screen) (curX : Int),
      (placeWords rw sel i ws scr curX).1.map (fun w => w.Bg) = ws.map (fun w => w.Bg) := by
  induction ws with
  | nil => intro i scr curX; rfl
  | cons w ws ih =>
    intro i scr curX
    simp only [placeWords, List.map_cons, ih]

theorem placeWords_map_Text (rw : Char → Nat) (sel : Int) (ws : List Word) :
    ∀ (i : Nat) (scr : Screen) (curX : Int),
      (placeWords rw sel i ws scr curX).1.map (fun w => w.Text) = ws.map (fun w => w.Text) := by
  induction ws with
  | nil => intro i scr curX; rfl
  | cons w ws ih =>
    intro i scr curX
    simp only [placeWords, List.map_cons, ih]

theorem redrawAll_map_Fg (rw : Char → Nat) (s : State) :
    (redrawAll rw s).words.map (fun w => w.Fg) = s.words.map (fun w => w.Fg) := by
  simp only [redrawAll, placeWords_map_Fg]

theorem redrawAll_map_Bg (rw : Char → Nat) (s : State) :
    (redrawAll rw s).words.map (fun w => w.Bg) = s.words.map (fun w => w.Bg) := by
  simp only [redrawAll, placeWords_map_Bg]

theorem redrawAll_selectedWord (rw : Char → Nat) (s : State) :
    (redrawAll rw s).selectedWord = s.selectedWord := rfl

theorem redrawAll_selectedBackground (rw : Char → Nat) (s : State) :
    (redrawAll rw s).selectedBackground = s.selectedBackground := rfl

theorem redrawAll_selectedForeground (rw : Char → Nat) (s : State) :
    (redrawAll rw s).selectedForeground = s.selectedForeground := rfl

theorem modifyWord_Bg_map_Fg (c : Attribute) (ws : List Word) :
    ∀ k : Nat, (modifyWord (fun w => { w with Bg := c }) k ws).map (fun w => w.Fg)
      = ws.map (fun w => w.Fg) := by
  induction ws with
  | nil => intro k; cases k <;> rfl
  | cons w ws ih =>
    intro k
    cases k with
    | zero => rfl
    | succ k => simp only [modifyWord, List.map_cons, ih]

theorem modifyWord_Bg_map_Bg (c : Attribute) (ws : List Word) :
    ∀ k : Nat, (modifyWord (fun w => { w with Bg := c }) k ws).map (fun w => w.Bg)
      = (ws.map (fun w => w.Bg)).set k c := by
  induction ws with
  | nil => intro k; cases k <;> rfl
  | cons w ws ih =>
    intro k
    cases k with
    | zero => rfl
    | succ k => simp only [modifyWord, List.map_cons, ih, List.set_cons_succ]

theorem modifyWord_Fg_map_Bg (c : Attribute) (ws : List Word) :
    ∀ k : Nat, (modifyWord (fun w => { w with Fg := c }) k ws).map (fun w => w.Bg)
      = ws.map (fun w => w.Bg) := by
  induction ws with
  | nil => intro k; cases k <;> rfl
  | cons w ws ih =>
    intro k
    cases k with
    | zero => rfl
    | succ k => simp only [modifyWord, List.map_cons, ih]

theorem modifyWord_Fg_map_Fg (c : Attribute) (ws : List Word) :
    ∀ k : Nat, (modifyWord (fun w => { w with Fg := c }) k ws).map (fun w => w.Fg)
      = (ws.map (fun w => w.Fg)).set k c := by
  induction ws with
  | nil => intro k; cases k <;> rfl
  | cons w ws ih =>
    intro k
    cases k with
    | zero => rfl
    | succ k => simp only [modifyWord, List.map_cons, ih, List.set_cons_succ]

/-- The palette index of an in-range click is the exact value `my*8 + mx/4`. -/
theorem colIndexOf_of_nonneg (mx my : Int) (hx : 0 ≤ mx) (hx2 : mx < 32) (hy : 0 ≤ my)
    (hy2 : my < 32) : colIndexOf mx my = my * 8 + mx / 4 := by
  unfold colIndexOf wrapInt colorsPerRow blockWidth
  rw [Int.tdiv_eq_ediv hx (by decide)]
  omega

theorem clickBackground_none_of_ge (rw : Char → Nat) (s : State) (mx my : Int)
    (h : 32 ≤ mx ∨ 32 ≤ my) : clickBackground rw s mx my = none := by
  unfold clickBackground
  have h256 : Int.tdiv 256 colorsPerRow = 32 := by decide
  simp only [h256]
  rw [if_neg (by omega)]

theorem clickForeground_none_of_outside (rw : Char → Nat) (s : State) (mx my : Int)
    (h : mx < 32 ∨ 64 ≤ mx ∨ 32 ≤ my) : clickForeground rw s mx my = none := by
  unfold clickForeground
  have h256 : Int.tdiv 256 colorsPerRow = 32 := by decide
  simp only [h256]
  rw [if_neg (by omega)]

theorem clickBackground_of_index (rw : Char → Nat) (s : State) (mx my : Int)
    (hx : mx < 32) (hy : my < 32) (hc : 0 ≤ colIndexOf mx my ∧ colIndexOf mx my < 256) :
    clickBackground rw s mx my =
      if s.selectedWord ≥ 0 ∧ s.selectedWord < s.words.length then
        some (redrawAll rw { s with words :=
          (modifyWord (fun w => { w with Bg := (colIndexOf mx my + 1).toNat })
            s.selectedWord.toNat s.words) })
      else some (redrawAll rw { s with selectedBackground := (colIndexOf mx my + 1).toNat }) := by
  unfold clickBackground
  have h256 : Int.tdiv 256 colorsPerRow = 32 := by decide
  simp only [h256]
  rw [if_pos ⟨hx, hy⟩, if_pos ⟨hc.1, hc.2⟩]

theorem clickForeground_of_index (rw : Char → Nat) (s : State) (mx my : Int)
    (hx : 32 ≤ mx) (hx2 : mx < 64) (hy : my < 32)
    (hc : 0 ≤ colIndexOf (mx - 32) my ∧ colIndexOf (mx - 32) my < 256) :
    clickForeground rw s mx my =
      if s.selectedWord ≥ 0 ∧ s.selectedWord < s.words.length then
        some (redrawAll rw { s with words :=
          (modifyWord (fun w => { w with Fg := (colIndexOf (mx - 32) my + 1).toNat })
            s.selectedWord.toNat s.words) })
      else some (redrawAll rw { s with selectedForeground := (colIndexOf (mx - 32) my + 1).toNat }) := by
  unfold clickForeground
  have h256 : Int.tdiv 256 colorsPerRow = 32 := by decide
  simp only [h256]
  rw [if_pos ⟨hx, hx2, hy⟩, if_pos ⟨hc.1, hc.2⟩]

theorem clickBackground_none_of_index (rw : Char → Nat) (s : State) (mx my : Int)
    (hc : ¬ (0 ≤ colIndexOf mx my ∧ colIndexOf mx my < 256)) :
    clickBackground rw s mx my = none := by
  unfold clickBackground
  dsimp only
  by_cases hb : mx < 32 ∧ my < Int.tdiv 256 colorsPerRow
  · rw [if_pos hb, if_neg hc]
  · rw [if_neg hb]

theorem clickForeground_none_of_index (rw : Char → Nat) (s : State) (mx my : Int)
    (hc : ¬ (0 ≤ colIndexOf (mx - 32) my ∧ colIndexOf (mx - 32) my < 256)) :
    clickForeground rw s mx my = none := by
  unfold clickForeground
  dsimp only
  by_cases hb : mx ≥ 32 ∧ mx < 64 ∧ my < Int.tdiv 256 colorsPerRow
  · rw [if_pos hb, if_neg hc]
  · rw [if_neg hb]

theorem findWord_eq_none (mx my : Int) (ws : List Word) :
    ∀ i : Nat, (∀ w ∈ ws, ¬ w.Contains mx my) → findWord mx my i ws = none := by
  induction ws with
  | nil => intro i _; rfl
  | cons w ws ih =>
    intro i h
    have hw : ¬ (my = w.Y ∧ (mx ≥ w.X ∧ mx < w.X + w.W)) := h w (List.mem_cons_self _ _)
    simp only [findWord, if_neg hw]
    exact ih (i + 1) (fun w1 hw1 => h w1 (List.mem_cons_of_mem _ hw1))

theorem findWord_eq_some (mx my : Int) (ws : List Word) :
    ∀ (i j : Nat) (w : Word), ws[j]? = some w → w.Contains mx my →
      (∀ (k : Nat) (v : Word), k < j → ws[k]? = some v → ¬ v.Contains mx my) →
      findWord mx my i ws = some (i + j) := by
  induction ws with
  | nil => intro i j w h; simp at h
  | cons a ws ih =>
    intro i j w hj hw hfirst
    cases j with
    | zero =>
      simp only [List.getElem?_cons_zero, Option.some.injEq] at hj
      subst hj
      have hw1 : my = a.Y ∧ (mx ≥ a.X ∧ mx < a.X + a.W) := hw
      simp only [findWord, if_pos hw1, Nat.add_zero]
    | succ j =>
      have ha : ¬ (my = a.Y ∧ (mx ≥ a.X ∧ mx < a.X + a.W)) :=
        hfirst 0 a (Nat.succ_pos j) (by simp)
      simp only [List.getElem?_cons_succ] at hj
      simp only [findWord, if_neg ha]
      rw [ih (i + 1) j w hj hw (fun k v hk hv => hfirst (k + 1) v (by omega) (by simpa using hv))]
      congr 1
      omega

theorem handleMouseClick_of_fallthrough (rw : Char → Nat) (s : State) (mx my : Int)
    (hb : clickBackground rw s mx my = none) (hf : clickForeground rw s mx my = none) :
    handleMouseClick rw s mx my =
      match findWord mx my 0 s.words with
      | some i => redrawAll rw { s with selectedWord := (i : Int) }
      | none => redrawAll rw { s with selectedWord := -1 } := by
  unfold handleMouseClick
  rw [hb, hf]

/-- What a click does once both palette tests have let it through: the colours
stay as they are and the selection becomes the first word containing the
click, or `-1`. -/
theorem fallthrough_effect (rw : Char → Nat) (s : State) (mx my : Int)
    (hb : clickBackground rw s mx my = none) (hf : clickForeground rw s mx my = none) :
    (∀ (i : Nat) (w : Word), s.words[i]? = some w → w.Contains mx my →
        (∀ (j : Nat) (v : Word), j < i → s.words[j]? = some v → ¬ v.Contains mx my) →
        (handleMouseClick rw s mx my).selectedWord = (i : Int)) ∧
    ((∀ w ∈ s.words, ¬ w.Contains mx my) → (handleMouseClick rw s mx my).selectedWord = -1) ∧
    (handleMouseClick rw s mx my).selectedBackground = s.selectedBackground ∧
    (handleMouseClick rw s mx my).selectedForeground = s.selectedForeground ∧
    (handleMouseClick rw s mx my).words.map (fun w => w.Fg) = s.words.map (fun w => w.Fg) ∧
    (handleMouseClick rw s mx my).words.map (fun w => w.Bg) = s.words.map (fun w => w.Bg) := by
  rw [handleMouseClick_of_fallthrough rw s mx my hb hf]
  refine ⟨?_, ?_, ?_, ?_, ?_, ?_⟩
  · intro i w hi hw hfirst
    rw [findWord_eq_some mx my s.words 0 i w hi hw hfirst]
    simp only [redrawAll_selectedWord, Nat.zero_add]
  · intro hnone
    rw [findWord_eq_none mx my s.words 0 hnone]
    rfl
  · cases findWord mx my 0 s.words <;> rfl
  · cases findWord mx my 0 s.words <;> rfl
  · cases findWord mx my 0 s.words <;> simp only [redrawAll_map_Fg]
  · cases findWord mx my 0 s.words <;> simp only [redrawAll_map_Bg]

/-! ## Layout of the word row -/

theorem drawWordRunes_snd (rw : Char → Nat) (y : Int) (fg bg : Attribute) (rs : List Char) :
    ∀ (scr : Screen) (x : Int),
      (drawWordRunes rw y fg bg rs scr x).2 = x + (((rs.map rw).sum : Nat) : Int) := by
  induction rs with
  | nil => intro scr x; simp [drawWordRunes]
  | cons r rs ih =>
    intro scr x
    simp only [drawWordRunes, ih, List.map_cons, List.sum_cons]
    push_cast
    omega

theorem drawWord_snd (rw : Char → Nat) (scr : Screen) (x y : Int) (text : String)
    (fg bg : Attribute) : (drawWord rw scr x y text fg bg).2 = x + displayWidth rw text := by
  unfold drawWord displayWidth
  exact drawWordRunes_snd rw y fg bg text.toList scr x

theorem placeWords_Y (rw : Char → Nat) (sel : Int) (ws : List Word) :
    ∀ (i : Nat) (scr : Screen) (curX : Int),
      ∀ w ∈ (placeWords rw sel i ws scr curX).1, w.Y = 33 := by
  induction ws with
  | nil => intro i scr curX w hw; simp [placeWords] at hw
  | cons a ws ih =>
    intro i scr curX w hw
    simp only [placeWords, List.mem_cons] at hw
    rcases hw with hw | hw
    · subst hw; rfl
    · exact ih _ _ _ w hw

theorem placeWords_head (rw : Char → Nat) (sel : Int) (ws : List Word) (i : Nat) (scr : Screen)
    (curX : Int) (w : Word) (h : (placeWords rw sel i ws scr curX).1[0]? = some w) :
    w.X = curX ∧ w.W = (w.Text.utf8ByteSize : Int) := by
  cases ws with
  | nil => simp [placeWords] at h
  | cons a ws =>
    simp only [placeWords, List.getElem?_cons_zero, Option.some.injEq] at h
    subst h
    exact ⟨rfl, rfl⟩

theorem placeWords_next (rw : Char → Nat) (sel : Int) (ws : List Word) :
    ∀ (i : Nat) (scr : Screen) (curX : Int) (k : Nat) (a b : Word),
      (placeWords rw sel i ws scr curX).1[k]? = some a →
      (placeWords rw sel i ws scr curX).1[k + 1]? = some b →
      b.X = a.X + displayWidth rw a.Text + 1 := by
  induction ws with
  | nil => intro i scr curX k a b ha; simp [placeWords] at ha
  | cons w ws ih =>
    intro i scr curX k a b ha hb
    simp only [placeWords, List.getElem?_cons_succ] at hb
    cases k with
    | zero =>
      simp only [placeWords, List.getElem?_cons_zero, Option.some.injEq] at ha
      have hx := (placeWords_head rw sel ws _ _ _ b hb).1
      rw [hx, drawWord_snd, ← ha]
    | succ k =>
      simp only [placeWords, List.getElem?_cons_succ] at ha
      exact ih _ _ _ k a b ha hb

theorem displayWidth_of_single_width (rw : Char → Nat) (text : String)
    (h : ∀ c ∈ text.toList, rw c = 1) : displayWidth rw text = (text.length : Int) := by
  unfold displayWidth
  have : ∀ l : List Char, (∀ c ∈ l, rw c = 1) → (l.map rw).sum = l.length := by
    intro l
    induction l with
    | nil => intro _; rfl
    | cons c cs ih =>
      intro hl
      simp only [List.map_cons, List.sum_cons, List.length_cons]
      rw [hl c (List.mem_cons_self _ _), ih (fun d hd => hl d (List.mem_cons_of_mem _ hd))]
      omega
  rw [this text.toList h]
  rfl

theorem redrawAll_text_mem (rw : Char → Nat) (s : State) (a : Word)
    (ha : a ∈ (redrawAll rw s).words) : ∃ w ∈ s.words, w.Text = a.Text := by
  have h1 : a.Text ∈ (redrawAll rw s).words.map (fun w => w.Text) :=
    List.mem_map_of_mem (fun w => w.Text) ha
  have h2 : (redrawAll rw s).words.map (fun w => w.Text) = s.words.map (fun w => w.Text) := by
    simp only [redrawAll, placeWords_map_Text]
  rw [h2] at h1
  exact List.mem_map.mp h1

theorem placeWords_fst_eq (rw : Char → Nat) (sel : Int) (ws : List Word) :
    ∀ (i : Nat) (scr1 scr2 : Screen) (curX : Int),
      (placeWords rw sel i ws scr1 curX).1 = (placeWords rw sel i ws scr2 curX).1 := by
  induction ws with
  | nil => intro i scr1 scr2 curX; rfl
  | cons w ws ih =>
    intro i scr1 scr2 curX
    simp only [placeWords, drawWord_snd]
    rw [ih]

/-! ## The screen buffer keeps its dimensions -/

theorem initScreen_wellFormed : initScreen.WellFormed := by
  constructor
  · simp [initScreen, screenH]
  · intro row hrow
    simp only [initScreen] at hrow
    rw [List.eq_of_mem_replicate hrow]
    simp [screenW]

theorem setCell_wellFormed (scr : Screen) (x y : Int) (ch : Char) (fg bg : Attribute)
    (h : scr.WellFormed) : (setCell scr x y ch fg bg).WellFormed := by
  unfold setCell
  split
  · exact h
  · obtain ⟨hlen, hrows⟩ := h
    constructor
    · simp only [List.length_set]; exact hlen
    · intro row hrow
      rcases List.mem_or_eq_of_mem_set hrow with hmem | heq
      · exact hrows row hmem
      · rw [heq, List.length_set]
        have hyl : y.toNat < scr.cells.length := by omega
        rw [List.getElem?_eq_getElem hyl]
        exact hrows _ (List.getElem_mem hyl)

theorem rowCells_length (scr : Screen) (y : Nat) (hwf : scr.WellFormed)
    (hX : scr.maxUsedX < screenW) (hy : (y : Int) < screenH) :
    (rowCells scr y).length = (scr.maxUsedX + 1).toNat := by
  obtain ⟨hlen, hrows⟩ := hwf
  have hyl : y < scr.cells.length := by omega
  unfold rowCells
  rw [List.getElem?_eq_getElem hyl, List.length_take]
  have := hrows _ (List.getElem_mem hyl)
  simp only [Option.getD_some]
  omega

theorem cellAt_eq_rowCells (scr : Screen) (y k : Nat) (hk : k < (scr.maxUsedX + 1).toNat) :
    cellAt scr k y = (rowCells scr y)[k]? := by
  unfold cellAt rowCells
  cases hrow : scr.cells[y]? with
  | none => simp
  | some row => simp only [Option.getD_some]; rw [List.getElem?_take_of_lt hk]

/-! ## The loops of dumpScreenAsANSI compute the reference line -/

theorem dumpRowLoop_eq_ref (scr : Screen) (y : Nat) (cs : List Cell) :
    ∀ (x : Nat) (prevFg prevBg : Attribute),
      (∀ k, k < cs.length → cellAt scr (x + k) y = cs[k]?) →
      ∃ f b, dumpRowLoop scr y cs.length x prevFg prevBg
        = some (rowChunksRef prevFg prevBg cs, f, b) := by
  induction cs with
  | nil => intro x prevFg prevBg _; exact ⟨prevFg, prevBg, rfl⟩
  | cons c cs ih =>
    intro x prevFg prevBg h
    have h0 : cellAt scr x y = some c := by
      have := h 0 (Nat.succ_pos _)
      simpa using this
    have hrest : ∀ k, k < cs.length → cellAt scr (x + 1 + k) y = cs[k]? := by
      intro k hk
      have := h (k + 1) (Nat.succ_lt_succ hk)
      simpa [Nat.add_assoc, Nat.add_comm 1 k] using this
    have hf1 : (if c.Fg ≠ prevFg then c.Fg else prevFg) = c.Fg := by
      by_cases hc : c.Fg = prevFg
      · simp [hc]
      · simp [hc]
    have hb1 : (if c.Bg ≠ prevBg then c.Bg else prevBg) = c.Bg := by
      by_cases hc : c.Bg = prevBg
      · simp [hc]
      · simp [hc]
    obtain ⟨f, b, hloop⟩ := ih (x + 1) c.Fg c.Bg hrest
    refine ⟨f, b, ?_⟩
    simp only [List.length_cons, dumpRowLoop, h0, hf1, hb1, hloop, rowChunksRef, ne_eq,
      ite_not]

/-- The builder of the line of row `y` as the specification words it. -/
theorem dumpRowLoop_row (scr : Screen) (y : Nat) (hwf : scr.WellFormed)
    (hX : scr.maxUsedX < screenW) (hy : (y : Int) < screenH) :
    ∃ f b, dumpRowLoop scr y (scr.maxUsedX + 1).toNat 0 ColorDefault ColorDefault
      = some (rowChunksRef ColorDefault ColorDefault (rowCells scr y), f, b) := by
  have hlen := rowCells_length scr y hwf hX hy
  have := dumpRowLoop_eq_ref scr y (rowCells scr y) 0 ColorDefault ColorDefault (by
    intro k hk
    rw [Nat.zero_add]
    exact cellAt_eq_rowCells scr y k (by omega))
  rw [hlen] at this
  exact this

theorem dumpRows_eq_ref (scr : Screen) (hwf : scr.WellFormed) (hX : scr.maxUsedX < screenW) :
    ∀ (n y0 : Nat) (prevFg prevBg : Attribute), ((y0 + n : Nat) : Int) ≤ screenH →
      dumpRows scr n y0 prevFg prevBg = some ((List.range n).map (fun j =>
        rowChunksRef ColorDefault ColorDefault (rowCells scr (y0 + j))
          ++ [Chunk.lineEnd "\x1b[0m\n"])) := by
  intro n
  induction n with
  | zero => intro y0 prevFg prevBg _; rfl
  | succ n ih =>
    intro y0 prevFg prevBg hle
    obtain ⟨f, b, hrow⟩ := dumpRowLoop_row scr y0 hwf hX (by omega)
    have hrest := ih (y0 + 1) f b (by omega)
    simp only [dumpRows, hrow, hrest, List.range_succ_eq_map, List.map_cons, List.map_map,
      Nat.add_zero]
    congr 2
    apply List.map_congr_left
    intro j _
    simp only [Function.comp, Nat.succ_eq_add_one]
    congr 3
    omega

theorem dumpLineChunks_eq_ref (scr : Screen) (hwf : scr.WellFormed)
    (hX : scr.maxUsedX < screenW) (hY : scr.maxUsedY < screenH) :
    dumpLineChunks scr = some ((List.range (scr.maxUsedY + 1).toNat).map (fun j =>
      rowChunksRef ColorDefault ColorDefault (rowCells scr j) ++ [Chunk.lineEnd "\x1b[0m\n"])) := by
  have hH : screenH = 50 := rfl
  unfold dumpLineChunks
  rw [dumpRows_eq_ref scr hwf hX _ 0 _ _ (by omega)]
  simp only [Nat.zero_add]


/-! ## Escapes of one channel -/

theorem escapeAttr_toANSI256 : ∀ a, a ≤ 256 → ∀ isFg : Bool, escapeAttr (toANSI256 a isFg) = a := by
  decide!

theorem toANSI256_ne (a b : Attribute) (isFg : Bool) (ha : a ≤ 256) (hb : b ≤ 256)
    (hab : a ≠ b) : toANSI256 a isFg ≠ toANSI256 b isFg := by
  intro h
  apply hab
  rw [← escapeAttr_toANSI256 a ha isFg, ← escapeAttr_toANSI256 b hb isFg, h]

theorem fgEscapes_append_lineEnd (s : String) (l : List Chunk) :
    fgEscapes (l ++ [Chunk.lineEnd s]) = fgEscapes l := by
  induction l with
  | nil => rfl
  | cons c cs ih => cases c <;> simp only [List.cons_append, fgEscapes, List.append_eq, ih]

theorem bgEscapes_append_lineEnd (s : String) (l : List Chunk) :
    bgEscapes (l ++ [Chunk.lineEnd s]) = bgEscapes l := by
  induction l with
  | nil => rfl
  | cons c cs ih => cases c <;> simp only [List.cons_append, bgEscapes, List.append_eq, ih]

theorem fgEscapes_chain (cs : List Cell) :
    ∀ (curFg curBg : Attribute), curFg ≤ 256 → (∀ c ∈ cs, c.Fg ≤ 256) →
      List.Chain (fun a b => a ≠ b) (toANSI256 curFg true)
        (fgEscapes (rowChunksRef curFg curBg cs)) := by
  induction cs with
  | nil => intro curFg curBg _ _; exact List.Chain.nil
  | cons c cs ih =>
    intro curFg curBg hcur hall
    have hc : c.Fg ≤ 256 := hall c (List.mem_cons_self _ _)
    have ih1 := ih c.Fg c.Bg hc (fun d hd => hall d (List.mem_cons_of_mem _ hd))
    by_cases h1 : c.Fg = curFg <;> by_cases h2 : c.Bg = curBg
    · subst h1; subst h2
      rw [rowChunksRef, if_pos rfl, if_pos rfl]
      exact ih1
    · subst h1
      rw [rowChunksRef, if_pos rfl, if_neg h2]
      exact ih1
    · subst h2
      rw [rowChunksRef, if_neg h1, if_pos rfl]
      exact List.Chain.cons (toANSI256_ne curFg c.Fg true hcur hc (Ne.symm h1)) ih1
    · rw [rowChunksRef, if_neg h1, if_neg h2]
      exact List.Chain.cons (toANSI256_ne curFg c.Fg true hcur hc (Ne.symm h1)) ih1

theorem bgEscapes_chain (cs : List Cell) :
    ∀ (curFg curBg : Attribute), curBg ≤ 256 → (∀ c ∈ cs, c.Bg ≤ 256) →
      List.Chain (fun a b => a ≠ b) (toANSI256 curBg false)
        (bgEscapes (rowChunksRef curFg curBg cs)) := by
  induction cs with
  | nil => intro curFg curBg _ _; exact List.Chain.nil
  | cons c cs ih =>
    intro curFg curBg hcur hall
    have hc : c.Bg ≤ 256 := hall c (List.mem_cons_self _ _)
    have ih1 := ih c.Fg c.Bg hc (fun d hd => hall d (List.mem_cons_of_mem _ hd))
    by_cases h1 : c.Fg = curFg <;> by_cases h2 : c.Bg = curBg
    · subst h1; subst h2
      rw [rowChunksRef, if_pos rfl, if_pos rfl]
      exact ih1
    · subst h1
      rw [rowChunksRef, if_pos rfl, if_neg h2]
      exact List.Chain.cons (toANSI256_ne curBg c.Bg false hcur hc (Ne.symm h2)) ih1
    · subst h2
      rw [rowChunksRef, if_neg h1, if_pos rfl]
      exact ih1
    · rw [rowChunksRef, if_neg h1, if_neg h2]
      exact List.Chain.cons (toANSI256_ne curBg c.Bg false hcur hc (Ne.symm h2)) ih1

theorem getElem?_range_map {α : Type} (f : Nat → α) (n y : Nat) (hy : y < n) :
    ((List.range n).map f)[y]? = some (f y) := by
  simp [List.getElem?_map, List.getElem?_range hy]

theorem renderChunks_append (l1 l2 : List Chunk) :
    renderChunks (l1 ++ l2) = renderChunks l1 ++ renderChunks l2 := by
  induction l1 with
  | nil => simp [renderChunks]
  | cons c cs ih => simp only [List.cons_append, renderChunks, List.append_eq, ih, String.append_assoc]

/-! ## Reading a cell after setCell -/

theorem cellAt_setCell_ne (scr : Screen) (x y : Int) (ch : Char) (fg bg : Attribute)
    (px py : Nat) (hne : x ≠ (px : Int) ∨ y ≠ (py : Int)) :
    cellAt (setCell scr x y ch fg bg) px py = cellAt scr px py := by
  unfold setCell
  split
  · rfl
  · rename_i hin
    have hx0 : 0 ≤ x := by omega
    have hy0 : 0 ≤ y := by omega
    unfold cellAt
    by_cases hy : y.toNat = py
    · have hxne : x.toNat ≠ px := by omega
      subst hy
      by_cases hlen : y.toNat < scr.cells.length
      · simp only [List.getElem?_set_self hlen, List.getElem?_eq_getElem hlen,
          Option.getD_some, List.getElem?_set_ne hxne]
      · have h1 : scr.cells[y.toNat]? = none := List.getElem?_eq_none (by omega)
        have h2 : (scr.cells.set y.toNat
            (((scr.cells[y.toNat]?).getD []).set x.toNat { Ch := ch, Fg := fg, Bg := bg }))[y.toNat]?
              = none := List.getElem?_eq_none (by simp only [List.length_set]; omega)
        rw [h2, h1]
    · simp only [List.getElem?_set_ne hy]

theorem cellAt_setCell_self (scr : Screen) (px py : Nat) (ch : Char) (fg bg : Attribute)
    (hwf : scr.WellFormed) (hx : (px : Int) < screenW) (hy : (py : Int) < screenH) :
    cellAt (setCell scr (px : Int) (py : Int) ch fg bg) px py
      = some { Ch := ch, Fg := fg, Bg := bg } := by
  obtain ⟨hlen, hrows⟩ := hwf
  have hyl : py < scr.cells.length := by omega
  have hxl : px < (scr.cells[py]).length := by
    have := hrows (scr.cells[py]) (List.getElem_mem hyl)
    omega
  have hcond : ¬ ((px : Int) < 0 ∨ (px : Int) ≥ screenW ∨ (py : Int) < 0 ∨ (py : Int) ≥ screenH) := by
    omega
  unfold setCell
  rw [if_neg hcond]
  unfold cellAt
  simp only [Int.toNat_ofNat, List.getElem?_eq_getElem hyl, Option.getD_some,
    List.getElem?_set_self hyl]
  rw [List.getElem?_set_self hxl]

theorem cellAt_isSome_of_wellFormed (scr : Screen) (px py : Nat) (hwf : scr.WellFormed)
    (hx : (px : Int) < screenW) (hy : (py : Int) < screenH) :
    ∃ c, cellAt scr px py = some c := by
  obtain ⟨hlen, hrows⟩ := hwf
  have hyl : py < scr.cells.length := by omega
  have hxl : px < (scr.cells[py]).length := by
    have := hrows (scr.cells[py]) (List.getElem_mem hyl)
    omega
  refine ⟨(scr.cells[py])[px], ?_⟩
  unfold cellAt
  simp only [List.getElem?_eq_getElem hyl, List.getElem?_eq_getElem hxl]

theorem cellAt_initScreen (px py : Nat) (hx : (px : Int) < screenW) (hy : (py : Int) < screenH) :
    cellAt initScreen px py = some blankCell := by
  have hx1 : px < screenW.toNat := by omega
  have hy1 : py < screenH.toNat := by omega
  unfold cellAt initScreen
  simp only [List.getElem?_replicate, if_pos hy1, if_pos hx1]

/-! ## The running maxima -/

theorem reachInv_initScreen : ReachInv initScreen := by
  refine ⟨initScreen_wellFormed, by decide, by decide, by decide, by decide, ?_⟩
  intro px py hx hy _
  exact cellAt_initScreen px py hx hy

theorem reachInv_setCell (scr : Screen) (x y : Int) (ch : Char) (fg bg : Attribute)
    (h : ReachInv scr) : ReachInv (setCell scr x y ch fg bg) := by
  obtain ⟨hwf, hx0, hx1, hy0, hy1, hblank⟩ := h
  by_cases hout : x < 0 ∨ x ≥ screenW ∨ y < 0 ∨ y ≥ screenH
  · have : setCell scr x y ch fg bg = scr := by unfold setCell; rw [if_pos hout]
    rw [this]
    exact ⟨hwf, hx0, hx1, hy0, hy1, hblank⟩
  · have hmx : (setCell scr x y ch fg bg).maxUsedX = if x > scr.maxUsedX then x else scr.maxUsedX := by
      unfold setCell; rw [if_neg hout]
    have hmy : (setCell scr x y ch fg bg).maxUsedY = if y > scr.maxUsedY then y else scr.maxUsedY := by
      unfold setCell; rw [if_neg hout]
    refine ⟨setCell_wellFormed scr x y ch fg bg hwf, ?_, ?_, ?_, ?_, ?_⟩
    · rw [hmx]; split <;> omega
    · rw [hmx]; split <;> omega
    · rw [hmy]; split <;> omega
    · rw [hmy]; split <;> omega
    · intro px py hpx hpy hfar
      rw [hmx, hmy] at hfar
      have hne : x ≠ (px : Int) ∨ y ≠ (py : Int) := by
        split at hfar <;> split at hfar <;> omega
      rw [cellAt_setCell_ne scr x y ch fg bg px py hne]
      apply hblank px py hpx hpy
      split at hfar <;> split at hfar <;> omega

theorem reachInv_runSetCells (calls : List SetCellCall) :
    ∀ scr : Screen, ReachInv scr → ReachInv (runSetCells scr calls) := by
  induction calls with
  | nil => intro scr h; exact h
  | cons c cs ih =>
    intro scr h
    exact ih _ (reachInv_setCell scr c.x c.y c.ch c.fg c.bg h)

theorem runSetCells_maxUsedX (calls : List SetCellCall) :
    ∀ scr : Screen, (runSetCells scr calls).maxUsedX
      = ((calls.filter (fun c => decide c.InGrid)).map (fun c => c.x)).foldl max scr.maxUsedX := by
  induction calls with
  | nil => intro scr; rfl
  | cons c cs ih =>
    intro scr
    have hstep : runSetCells scr (c :: cs) = runSetCells (setCell scr c.x c.y c.ch c.fg c.bg) cs := rfl
    rw [hstep, ih]
    by_cases hin : c.InGrid
    · have hcond : ¬ (c.x < 0 ∨ c.x ≥ screenW ∨ c.y < 0 ∨ c.y ≥ screenH) := by
        unfold SetCellCall.InGrid at hin; omega
      have hmx : (setCell scr c.x c.y c.ch c.fg c.bg).maxUsedX = max scr.maxUsedX c.x := by
        unfold setCell; rw [if_neg hcond]
        show (if c.x > scr.maxUsedX then c.x else scr.maxUsedX) = max scr.maxUsedX c.x
        split <;> omega
      simp only [List.filter_cons, hin, decide_True, if_true, List.map_cons, List.foldl_cons, hmx]
    · have hcond : c.x < 0 ∨ c.x ≥ screenW ∨ c.y < 0 ∨ c.y ≥ screenH := by
        unfold SetCellCall.InGrid at hin; omega
      have hsame : setCell scr c.x c.y c.ch c.fg c.bg = scr := by
        unfold setCell; rw [if_pos hcond]
      simp only [List.filter_cons, hin, decide_False, Bool.false_eq_true, if_false, hsame]

theorem runSetCells_maxUsedY (calls : List SetCellCall) :
    ∀ scr : Screen, (runSetCells scr calls).maxUsedY
      = ((calls.filter (fun c => decide c.InGrid)).map (fun c => c.y)).foldl max scr.maxUsedY := by
  induction calls with
  | nil => intro scr; rfl
  | cons c cs ih =>
    intro scr
    have hstep : runSetCells scr (c :: cs) = runSetCells (setCell scr c.x c.y c.ch c.fg c.bg) cs := rfl
    rw [hstep, ih]
    by_cases hin : c.InGrid
    · have hcond : ¬ (c.x < 0 ∨ c.x ≥ screenW ∨ c.y < 0 ∨ c.y ≥ screenH) := by
        unfold SetCellCall.InGrid at hin; omega
      have hmy : (setCell scr c.x c.y c.ch c.fg c.bg).maxUsedY = max scr.maxUsedY c.y := by
        unfold setCell; rw [if_neg hcond]
        show (if c.y > scr.maxUsedY then c.y else scr.maxUsedY) = max scr.maxUsedY c.y
        split <;> omega
      simp only [List.filter_cons, hin, decide_True, if_true, List.map_cons, List.foldl_cons, hmy]
    · have hcond : c.x < 0 ∨ c.x ≥ screenW ∨ c.y < 0 ∨ c.y ≥ screenH := by
        unfold SetCellCall.InGrid at hin; omega
      have hsame : setCell scr c.x c.y c.ch c.fg c.bg = scr := by
        unfold setCell; rw [if_pos hcond]
      simp only [List.filter_cons, hin, decide_False, Bool.false_eq_true, if_false, hsame]

/-! ## The cells of the swatch labels -/

theorem rangeString_label : ∀ j : Nat, j < 256 →
    rangeString 0 (padLabel 3 (toString (j : Int))).toList
      = [(0, labelChar j 0), (1, labelChar j 1), (2, labelChar j 2)] := by
  decide!

theorem drawLabel_of_label (scr : Screen) (x y : Int) (j : Nat) (hj : j < 256)
    (fg bg : Attribute) :
    drawLabel scr x y (padLabel 3 (toString (j : Int))) fg bg
      = setCell (setCell (setCell scr (x + 0) y (labelChar j 0) fg bg)
          (x + 1) y (labelChar j 1) fg bg) (x + 2) y (labelChar j 2) fg bg := by
  unfold drawLabel
  rw [rangeString_label j hj]
  rfl

theorem tmod_tdiv_of_nat (j : Nat) :
    (j : Int).tmod colorsPerRow = ((j % 8 : Nat) : Int) ∧
    (j : Int).tdiv colorsPerRow = ((j / 8 : Nat) : Int) := by
  unfold colorsPerRow
  rw [Int.tmod_eq_emod (Int.ofNat_nonneg j) (by decide),
    Int.tdiv_eq_ediv (Int.ofNat_nonneg j) (by decide)]
  omega

/-- The three writes of a label, at the columns `x`, `x+1`, `x+2` of row `y`. -/
theorem cellAt_label_frame (scr : Screen) (x y : Nat) (c0 c1 c2 : Char) (fg bg : Attribute)
    (px py : Nat) (h : py ≠ y ∨ px < x ∨ x + 3 ≤ px) :
    cellAt (setCell (setCell (setCell scr ((x : Int) + 0) (y : Int) c0 fg bg)
        ((x : Int) + 1) (y : Int) c1 fg bg) ((x : Int) + 2) (y : Int) c2 fg bg) px py
      = cellAt scr px py := by
  rw [cellAt_setCell_ne _ _ _ _ _ _ px py (by omega),
    cellAt_setCell_ne _ _ _ _ _ _ px py (by omega),
    cellAt_setCell_ne _ _ _ _ _ _ px py (by omega)]

theorem cellAt_label_write (scr : Screen) (x y : Nat) (c0 c1 c2 : Char) (fg bg : Attribute)
    (dx : Nat) (hdx : dx < 3) (hwf : scr.WellFormed) (hx : ((x + dx : Nat) : Int) < screenW)
    (hy : (y : Int) < screenH) :
    cellAt (setCell (setCell (setCell scr ((x : Int) + 0) (y : Int) c0 fg bg)
        ((x : Int) + 1) (y : Int) c1 fg bg) ((x : Int) + 2) (y : Int) c2 fg bg) (x + dx) y
      = some { Ch := [c0, c1, c2].getD dx ' ', Fg := fg, Bg := bg } := by
  have hwf1 := setCell_wellFormed scr ((x : Int) + 0) (y : Int) c0 fg bg hwf
  have hwf2 := setCell_wellFormed _ ((x : Int) + 1) (y : Int) c1 fg bg hwf1
  have e0 : (x : Int) + 0 = ((x + 0 : Nat) : Int) := by omega
  have e1 : (x : Int) + 1 = ((x + 1 : Nat) : Int) := by omega
  have e2 : (x : Int) + 2 = ((x + 2 : Nat) : Int) := by omega
  have hd : dx = 0 ∨ dx = 1 ∨ dx = 2 := by omega
  rcases hd with hd | hd | hd <;> subst hd
  · rw [cellAt_setCell_ne _ _ _ _ _ _ _ _ (by omega), cellAt_setCell_ne _ _ _ _ _ _ _ _ (by omega),
      e0, cellAt_setCell_self scr (x + 0) y c0 fg bg hwf hx hy]
    rfl
  · rw [cellAt_setCell_ne _ _ _ _ _ _ _ _ (by omega), e1,
      cellAt_setCell_self _ (x + 1) y c1 fg bg hwf1 hx hy]
    rfl
  · rw [e2, cellAt_setCell_self _ (x + 2) y c2 fg bg hwf2 hx hy]
    rfl

theorem backgroundBlock_eq (sf : Attribute) (scr : Screen) (j : Nat) (hj : j < 256) :
    backgroundBlock sf scr j
      = setCell (setCell (setCell scr ((((j % 8) * 4 : Nat) : Int) + 0) ((j / 8 : Nat) : Int)
            (labelChar j 0) sf (j + 1))
          ((((j % 8) * 4 : Nat) : Int) + 1) ((j / 8 : Nat) : Int) (labelChar j 1) sf (j + 1))
          ((((j % 8) * 4 : Nat) : Int) + 2) ((j / 8 : Nat) : Int) (labelChar j 2) sf (j + 1) := by
  unfold backgroundBlock
  simp only [drawLabel_of_label _ _ _ j hj, (tmod_tdiv_of_nat j).1, (tmod_tdiv_of_nat j).2,
    blockWidth]
  push_cast
  rfl

theorem foregroundBlock_eq (sb : Attribute) (scr : Screen) (j : Nat) (hj : j < 256) :
    foregroundBlock sb scr j
      = setCell (setCell (setCell scr ((((j % 8) * 4 + 32 : Nat) : Int) + 0) ((j / 8 : Nat) : Int)
            (labelChar j 0) (j + 1) sb)
          ((((j % 8) * 4 + 32 : Nat) : Int) + 1) ((j / 8 : Nat) : Int) (labelChar j 1) (j + 1) sb)
          ((((j % 8) * 4 + 32 : Nat) : Int) + 2) ((j / 8 : Nat) : Int) (labelChar j 2) (j + 1) sb := by
  unfold foregroundBlock
  simp only [drawLabel_of_label _ _ _ j hj, (tmod_tdiv_of_nat j).1, (tmod_tdiv_of_nat j).2,
    blockWidth]
  push_cast
  rfl


/-! ## Loops over the 256 swatches -/

theorem foldl_range_wellFormed (f : Screen → Nat → Screen)
    (hwf : ∀ scr j, j < 256 → scr.WellFormed → (f scr j).WellFormed) :
    ∀ n, n ≤ 256 → ∀ scr : Screen, scr.WellFormed →
      ((List.range n).foldl f scr).WellFormed := by
  intro n
  induction n with
  | zero => intro _ scr h; exact h
  | succ n ih =>
    intro hn scr h
    rw [List.range_succ, List.foldl_append]
    exact hwf _ n (by omega) (ih (by omega) scr h)

theorem foldl_range_frame (f : Screen → Nat → Screen) (px py : Nat)
    (hframe : ∀ scr j, j < 256 → cellAt (f scr j) px py = cellAt scr px py) :
    ∀ n, n ≤ 256 → ∀ scr : Screen,
      cellAt ((List.range n).foldl f scr) px py = cellAt scr px py := by
  intro n
  induction n with
  | zero => intro _ scr; rfl
  | succ n ih =>
    intro hn scr
    rw [List.range_succ, List.foldl_append]
    simp only [List.foldl_cons, List.foldl_nil]
    rw [hframe _ n (by omega), ih (by omega) scr]

theorem foldl_range_write (f : Screen → Nat → Screen) (px py i : Nat) (expected : Cell)
    (hwf : ∀ scr j, j < 256 → scr.WellFormed → (f scr j).WellFormed)
    (hframe : ∀ scr j, j < 256 → j ≠ i → cellAt (f scr j) px py = cellAt scr px py)
    (hwrite : ∀ scr, scr.WellFormed → cellAt (f scr i) px py = some expected) :
    ∀ n, n ≤ 256 → i < n → ∀ scr : Screen, scr.WellFormed →
      cellAt ((List.range n).foldl f scr) px py = some expected := by
  intro n
  induction n with
  | zero => intro _ hi; omega
  | succ n ih =>
    intro hn hi scr h
    rw [List.range_succ, List.foldl_append]
    simp only [List.foldl_cons, List.foldl_nil]
    by_cases hin : i = n
    · subst hin
      exact hwrite _ (foldl_range_wellFormed f hwf i (by omega) scr h)
    · rw [hframe _ n (by omega) (Ne.symm hin)]
      exact ih (by omega) (by omega) scr h

theorem backgroundBlock_wellFormed (sf : Attribute) (scr : Screen) (j : Nat) (hj : j < 256)
    (h : scr.WellFormed) : (backgroundBlock sf scr j).WellFormed := by
  rw [backgroundBlock_eq sf scr j hj]
  exact setCell_wellFormed _ _ _ _ _ _ (setCell_wellFormed _ _ _ _ _ _
    (setCell_wellFormed _ _ _ _ _ _ h))

theorem foregroundBlock_wellFormed (sb : Attribute) (scr : Screen) (j : Nat) (hj : j < 256)
    (h : scr.WellFormed) : (foregroundBlock sb scr j).WellFormed := by
  rw [foregroundBlock_eq sb scr j hj]
  exact setCell_wellFormed _ _ _ _ _ _ (setCell_wellFormed _ _ _ _ _ _
    (setCell_wellFormed _ _ _ _ _ _ h))

/-! ## The word row leaves the other rows alone -/

theorem foldl_fill_frame (y : Int) (fg bg : Attribute) (px py : Nat) (hrow : y ≠ (py : Int))
    (x : Int) (l : List Int) : ∀ scr : Screen,
    cellAt (l.foldl (fun (s : Screen) (k : Int) => setCell s (x + (k + 1)) y ' ' fg bg) scr) px py
      = cellAt scr px py := by
  induction l with
  | nil => intro scr; rfl
  | cons k ks ih =>
    intro scr
    rw [List.foldl_cons, ih, cellAt_setCell_ne _ _ _ _ _ _ px py (Or.inr hrow)]

theorem drawWordRunes_frame_row (rw : Char → Nat) (y : Int) (fg bg : Attribute) (px py : Nat)
    (hrow : y ≠ (py : Int)) (rs : List Char) : ∀ (scr : Screen) (x : Int),
    cellAt (drawWordRunes rw y fg bg rs scr x).1 px py = cellAt scr px py := by
  induction rs with
  | nil => intro scr x; rfl
  | cons r rs ih =>
    intro scr x
    simp only [drawWordRunes]
    rw [ih, foldl_fill_frame y fg bg px py hrow, cellAt_setCell_ne _ _ _ _ _ _ px py (Or.inr hrow)]

theorem placeWords_frame_row (rw : Char → Nat) (sel : Int) (px py : Nat) (hrow : py ≠ 33)
    (ws : List Word) : ∀ (i : Nat) (scr : Screen) (curX : Int),
    cellAt (placeWords rw sel i ws scr curX).2 px py = cellAt scr px py := by
  have hy : wordY ≠ (py : Int) := by
    have : wordY = 33 := rfl
    omega
  induction ws with
  | nil => intro i scr curX; rfl
  | cons w ws ih =>
    intro i scr curX
    simp only [placeWords]
    rw [ih]
    unfold drawWord
    exact drawWordRunes_frame_row rw wordY _ _ px py hy _ _ _

/-! ## The label cells after redrawAll -/

theorem redrawAll_background_swatch (rw : Char → Nat) (s : State) (i dx : Nat)
    (hwf : s.scr.WellFormed) (hi : i < 256) (hdx : dx < 3) :
    cellAt (redrawAll rw s).scr ((i % 8) * 4 + dx) (i / 8)
      = some { Ch := labelChar i dx, Fg := s.selectedForeground, Bg := i + 1 } := by
  have hW : screenW = 120 := rfl
  have hH : screenH = 50 := rfl
  unfold redrawAll
  simp only []
  rw [placeWords_frame_row rw _ _ _ (by omega)]
  rw [foldl_range_frame (foregroundBlock s.selectedBackground) _ _ (by
    intro scr j hj
    rw [foregroundBlock_eq _ scr j hj]
    exact cellAt_label_frame scr _ _ _ _ _ _ _ _ _ (by omega)) 256 (Nat.le_refl _)]
  refine foldl_range_write (backgroundBlock s.selectedForeground) _ _ i _
    (fun scr j hj h => backgroundBlock_wellFormed _ scr j hj h) ?_ ?_ 256 (Nat.le_refl _) hi
    s.scr hwf
  · intro scr j hj hne
    rw [backgroundBlock_eq _ scr j hj]
    exact cellAt_label_frame scr _ _ _ _ _ _ _ _ _ (by omega)
  · intro scr h
    rw [backgroundBlock_eq _ scr i hi,
      cellAt_label_write scr _ _ _ _ _ _ _ dx hdx h (by omega) (by omega)]
    have hd : dx = 0 ∨ dx = 1 ∨ dx = 2 := by omega
    rcases hd with hd | hd | hd <;> subst hd <;> rfl

theorem redrawAll_foreground_swatch (rw : Char → Nat) (s : State) (i dx : Nat)
    (hwf : s.scr.WellFormed) (hi : i < 256) (hdx : dx < 3) :
    cellAt (redrawAll rw s).scr ((i % 8) * 4 + 32 + dx) (i / 8)
      = some { Ch := labelChar i dx, Fg := i + 1, Bg := s.selectedBackground } := by
  have hW : screenW = 120 := rfl
  have hH : screenH = 50 := rfl
  unfold redrawAll
  simp only []
  rw [placeWords_frame_row rw _ _ _ (by omega)]
  refine foldl_range_write (foregroundBlock s.selectedBackground) _ _ i _
    (fun scr j hj h => foregroundBlock_wellFormed _ scr j hj h) ?_ ?_ 256 (Nat.le_refl _) hi
    _ (foldl_range_wellFormed _
      (fun scr j hj h => backgroundBlock_wellFormed _ scr j hj h) 256 (Nat.le_refl _) s.scr hwf)
  · intro scr j hj hne
    rw [foregroundBlock_eq _ scr j hj]
    exact cellAt_label_frame scr _ _ _ _ _ _ _ _ _ (by omega)
  · intro scr h
    rw [foregroundBlock_eq _ scr i hi,
      cellAt_label_write scr _ _ _ _ _ _ _ dx hdx h (by omega) (by omega)]
    have hd : dx = 0 ∨ dx = 1 ∨ dx = 2 := by omega
    rcases hd with hd | hd | hd <;> subst hd <;> rfl


/-! ## Cells painted by drawWord -/

theorem cellAt_setCell_hit (scr : Screen) (px py : Nat) (ch : Char) (fg bg : Attribute)
    (c0 : Cell) (hex : cellAt scr px py = some c0)
    (hin : ¬ ((px : Int) < 0 ∨ (px : Int) ≥ screenW ∨ (py : Int) < 0 ∨ (py : Int) ≥ screenH)) :
    cellAt (setCell scr (px : Int) (py : Int) ch fg bg) px py
      = some { Ch := ch, Fg := fg, Bg := bg } := by
  unfold cellAt at hex
  cases hrow : scr.cells[py]? with
  | none => rw [hrow] at hex; simp at hex
  | some row =>
    rw [hrow] at hex
    simp only [] at hex
    have hyl : py < scr.cells.length := by
      by_contra h
      rw [List.getElem?_eq_none (by omega)] at hrow
      simp at hrow
    have hxl : px < row.length := by
      by_contra h
      rw [List.getElem?_eq_none (by omega)] at hex
      simp at hex
    unfold setCell
    rw [if_neg hin]
    unfold cellAt
    simp only [Int.toNat_ofNat, hrow, Option.getD_some, List.getElem?_set_self hyl]
    rw [List.getElem?_set_self hxl]

theorem painted_setCell (fg bg : Attribute) (scr : Screen) (px py : Nat) (x y : Int)
    (ch : Char) (h : Painted fg bg scr px py) :
    Painted fg bg (setCell scr x y ch fg bg) px py := by
  by_cases hne : x ≠ (px : Int) ∨ y ≠ (py : Int)
  · obtain ⟨c, hc, hf, hb⟩ := h
    exact ⟨c, by rw [cellAt_setCell_ne scr x y ch fg bg px py hne]; exact hc, hf, hb⟩
  · have hx : x = (px : Int) := by omega
    have hy : y = (py : Int) := by omega
    subst hx; subst hy
    by_cases hout : (px : Int) < 0 ∨ (px : Int) ≥ screenW ∨ (py : Int) < 0 ∨ (py : Int) ≥ screenH
    · have : setCell scr (px : Int) (py : Int) ch fg bg = scr := by
        unfold setCell; rw [if_pos hout]
      rw [this]; exact h
    · obtain ⟨c, hc, _, _⟩ := h
      exact ⟨_, cellAt_setCell_hit scr px py ch fg bg c hc hout, rfl, rfl⟩

theorem painted_fill (fg bg : Attribute) (px py : Nat) (x y : Int) (l : List Int) :
    ∀ scr : Screen, Painted fg bg scr px py →
      Painted fg bg
        (l.foldl (fun (s : Screen) (k : Int) => setCell s (x + (k + 1)) y ' ' fg bg) scr) px py := by
  induction l with
  | nil => intro scr h; exact h
  | cons k ks ih =>
    intro scr h
    rw [List.foldl_cons]
    exact ih _ (painted_setCell fg bg scr px py _ y ' ' h)

theorem painted_drawWordRunes (rw : Char → Nat) (fg bg : Attribute) (px py : Nat) (y : Int)
    (rs : List Char) : ∀ (scr : Screen) (x : Int), Painted fg bg scr px py →
      Painted fg bg (drawWordRunes rw y fg bg rs scr x).1 px py := by
  induction rs with
  | nil => intro scr x h; exact h
  | cons r rs ih =>
    intro scr x h
    simp only [drawWordRunes]
    exact ih _ _ (painted_fill fg bg px py x y _ _ (painted_setCell fg bg scr px py x y r h))

theorem fill_wellFormed (fg bg : Attribute) (x y : Int) (l : List Int) :
    ∀ scr : Screen, scr.WellFormed →
      (l.foldl (fun (s : Screen) (k : Int) => setCell s (x + (k + 1)) y ' ' fg bg) scr).WellFormed := by
  induction l with
  | nil => intro scr h; exact h
  | cons k ks ih =>
    intro scr h
    rw [List.foldl_cons]
    exact ih _ (setCell_wellFormed scr _ y ' ' fg bg h)

theorem drawWordRunes_wellFormed (rw : Char → Nat) (fg bg : Attribute) (y : Int)
    (rs : List Char) : ∀ (scr : Screen) (x : Int), scr.WellFormed →
      (drawWordRunes rw y fg bg rs scr x).1.WellFormed := by
  induction rs with
  | nil => intro scr x h; exact h
  | cons r rs ih =>
    intro scr x h
    simp only [drawWordRunes]
    exact ih _ _ (fill_wellFormed fg bg x y _ _ (setCell_wellFormed scr x y r fg bg h))

theorem fill_paints (fg bg : Attribute) (x : Int) (py : Nat) (hy : (py : Int) < screenH)
    (k0 : Int) (hcol : 0 ≤ x + (k0 + 1) ∧ x + (k0 + 1) < screenW) (l : List Int) :
    ∀ scr : Screen, scr.WellFormed → k0 ∈ l →
      Painted fg bg
        (l.foldl (fun (s : Screen) (k : Int) => setCell s (x + (k + 1)) (py : Int) ' ' fg bg) scr)
        (x + (k0 + 1)).toNat py := by
  induction l with
  | nil => intro scr _ h; simp at h
  | cons k ks ih =>
    intro scr hwf hmem
    rw [List.foldl_cons]
    rcases List.mem_cons.mp hmem with heq | hin
    · subst heq
      apply painted_fill
      have hcast : x + (k0 + 1) = (((x + (k0 + 1)).toNat : Nat) : Int) := by omega
      have := cellAt_setCell_self scr (x + (k0 + 1)).toNat py ' ' fg bg hwf (by omega) hy
      rw [← hcast] at this
      exact ⟨{ Ch := ' ', Fg := fg, Bg := bg }, this, rfl, rfl⟩
    · exact ih _ (setCell_wellFormed scr _ _ ' ' fg bg hwf) hin

theorem mem_fill_list (n : Nat) (k : Nat) (hk : k < n) :
    ((k : Nat) : Int) ∈ (do let a ← List.range n; pure (a : Int) : List Int) := by
  simp only [List.pure_def, List.bind_eq_flatMap, List.mem_flatMap, List.mem_range,
    List.mem_singleton]
  exact ⟨k, hk, rfl⟩

theorem fill_list_nonneg (n : Nat) (k : Int)
    (hk : k ∈ (do let a ← List.range n; pure (a : Int) : List Int)) : 0 ≤ k := by
  simp only [List.pure_def, List.bind_eq_flatMap, List.mem_flatMap, List.mem_range,
    List.mem_singleton] at hk
  obtain ⟨a, _, rfl⟩ := hk
  exact Int.ofNat_nonneg a

theorem drawnColumns_bounds (rw : Char → Nat) (rs : List Char) :
    ∀ (x col : Int), col ∈ drawnColumns rw x rs →
      x ≤ col ∧ col ≤ x + (((rs.map rw).sum : Nat) : Int) := by
  induction rs with
  | nil => intro x col h; simp [drawnColumns] at h
  | cons r rs ih =>
    intro x col h
    simp only [drawnColumns, List.cons_append, List.mem_cons, List.mem_append, List.mem_map,
      List.mem_range] at h
    simp only [List.map_cons, List.sum_cons]
    rcases h with h | h | h
    · omega
    · obtain ⟨k, hk, rfl⟩ := h
      omega
    · have := ih _ _ h
      omega

theorem fill_frame_left (fg bg : Attribute) (x y : Int) (px py : Nat) (hleft : (px : Int) < x)
    (l : List Int) (hl : ∀ k ∈ l, 0 ≤ k) : ∀ scr : Screen,
    cellAt (l.foldl (fun (s : Screen) (k : Int) => setCell s (x + (k + 1)) y ' ' fg bg) scr) px py
      = cellAt scr px py := by
  induction l with
  | nil => intro scr; rfl
  | cons k ks ih =>
    intro scr
    have hk := hl k (List.mem_cons_self _ _)
    rw [List.foldl_cons, ih (fun a ha => hl a (List.mem_cons_of_mem _ ha)),
      cellAt_setCell_ne _ _ _ _ _ _ px py (Or.inl (by omega))]

theorem drawWordRunes_frame_left (rw : Char → Nat) (y : Int) (fg bg : Attribute) (px py : Nat)
    (rs : List Char) : ∀ (scr : Screen) (x : Int), (px : Int) < x →
    cellAt (drawWordRunes rw y fg bg rs scr x).1 px py = cellAt scr px py := by
  induction rs with
  | nil => intro scr x _; rfl
  | cons r rs ih =>
    intro scr x hleft
    simp only [drawWordRunes]
    rw [ih _ _ (by omega), fill_frame_left fg bg x y px py hleft _ (fill_list_nonneg _),
      cellAt_setCell_ne _ _ _ _ _ _ px py (Or.inl (by omega))]

theorem placeWords_frame_left (rw : Char → Nat) (sel : Int) (px py : Nat) (ws : List Word) :
    ∀ (i : Nat) (scr : Screen) (curX : Int), (px : Int) < curX →
    cellAt (placeWords rw sel i ws scr curX).2 px py = cellAt scr px py := by
  induction ws with
  | nil => intro i scr curX _; rfl
  | cons w ws ih =>
    intro i scr curX hleft
    simp only [placeWords]
    rw [ih _ _ _ (by rw [drawWord_snd]; unfold displayWidth; omega)]
    unfold drawWord
    exact drawWordRunes_frame_left rw _ _ _ px py _ _ _ hleft

theorem drawWordRunes_paints (rw : Char → Nat) (fg bg : Attribute) (py : Nat)
    (hy : (py : Int) < screenH) (col : Int) (hcol : 0 ≤ col ∧ col < screenW) (rs : List Char) :
    ∀ (scr : Screen) (x : Int), scr.WellFormed → col ∈ drawnColumns rw x rs →
      Painted fg bg (drawWordRunes rw (py : Int) fg bg rs scr x).1 col.toNat py := by
  induction rs with
  | nil => intro scr x _ h; simp [drawnColumns] at h
  | cons r rs ih =>
    intro scr x hwf h
    simp only [drawnColumns, List.cons_append, List.mem_cons, List.mem_append, List.mem_map,
      List.mem_range] at h
    simp only [drawWordRunes]
    rcases h with h | h | h
    · subst h
      apply painted_drawWordRunes
      apply painted_fill
      have hcast : col = ((col.toNat : Nat) : Int) := by omega
      have := cellAt_setCell_self scr col.toNat py r fg bg hwf (by omega) hy
      rw [← hcast] at this
      exact ⟨{ Ch := r, Fg := fg, Bg := bg }, this, rfl, rfl⟩
    · obtain ⟨k, hk, rfl⟩ := h
      apply painted_drawWordRunes
      exact fill_paints fg bg x py hy (k : Int) hcol _ _
        (setCell_wellFormed scr x _ r fg bg hwf) (mem_fill_list _ k hk)
    · exact ih _ _ (fill_wellFormed fg bg x _ _ _ (setCell_wellFormed scr x _ r fg bg hwf)) h

theorem placeWords_wellFormed (rw : Char → Nat) (sel : Int) (ws : List Word) :
    ∀ (i : Nat) (scr : Screen) (curX : Int), scr.WellFormed →
      (placeWords rw sel i ws scr curX).2.WellFormed := by
  induction ws with
  | nil => intro i scr curX h; exact h
  | cons w ws ih =>
    intro i scr curX h
    simp only [placeWords]
    apply ih
    unfold drawWord
    exact drawWordRunes_wellFormed rw _ _ _ _ _ _ h

theorem placeWords_paints (rw : Char → Nat) (sel : Int) (col : Int)
    (hcol : 0 ≤ col ∧ col < screenW) (ws : List Word) :
    ∀ (i : Nat) (scr : Screen) (curX : Int) (k : Nat) (w : Word), scr.WellFormed →
      (placeWords rw sel i ws scr curX).1[k]? = some w →
      col ∈ drawnColumns rw w.X w.Text.toList →
      Painted w.Fg (displayBackground sel (i + k) w) (placeWords rw sel i ws scr curX).2
        col.toNat 33 := by
  have hH : ((33 : Nat) : Int) < screenH := by decide
  have hY : wordY = ((33 : Nat) : Int) := rfl
  induction ws with
  | nil => intro i scr curX k w _ h; simp [placeWords] at h
  | cons a ws ih =>
    intro i scr curX k w hwf hk hmem
    cases k with
    | zero =>
      simp only [placeWords, List.getElem?_cons_zero, Option.some.injEq] at hk
      subst hk
      have hb := drawnColumns_bounds rw a.Text.toList curX col hmem
      simp only [placeWords, displayBackground, Nat.add_zero]
      unfold Painted
      rw [placeWords_frame_left rw sel _ _ ws _ _ _ (by
        rw [drawWord_snd]; unfold displayWidth; omega)]
      exact drawWordRunes_paints rw _ _ 33 hH col hcol _ scr curX hwf hmem
    | succ k =>
      simp only [placeWords, List.getElem?_cons_succ] at hk
      simp only [placeWords]
      have := ih (i + 1) _ _ k w (by
        unfold drawWord
        exact drawWordRunes_wellFormed rw _ _ _ _ _ _ hwf) hk hmem
      have hidx : i + (k + 1) = i + 1 + k := by omega
      rw [hidx]
      exact this


theorem redrawAll_wellFormed (rw : Char → Nat) (s : State) (h : s.scr.WellFormed) :
    (redrawAll rw s).scr.WellFormed := by
  unfold redrawAll
  simp only []
  apply placeWords_wellFormed
  apply foldl_range_wellFormed _ (fun scr j hj h => foregroundBlock_wellFormed _ scr j hj h) 256
    (Nat.le_refl _)
  exact foldl_range_wellFormed _ (fun scr j hj h => backgroundBlock_wellFormed _ scr j hj h) 256
    (Nat.le_refl _) s.scr h

theorem redrawAll_word_painted (rw : Char → Nat) (s : State) (k : Nat) (w : Word) (col : Int)
    (hwf : s.scr.WellFormed) (hk : (redrawAll rw s).words[k]? = some w)
    (hmem : col ∈ drawnColumns rw w.X w.Text.toList) (hcol : 0 ≤ col ∧ col < screenW) :
    Painted w.Fg (displayBackground s.selectedWord k w) (redrawAll rw s).scr col.toNat 33 := by
  have h := placeWords_paints rw s.selectedWord col hcol s.words 0
    ((List.range 256).foldl (foregroundBlock s.selectedBackground)
      ((List.range 256).foldl (backgroundBlock s.selectedForeground) s.scr)) 1 k w
    (foldl_range_wellFormed _ (fun scr j hj h => foregroundBlock_wellFormed _ scr j hj h) 256
      (Nat.le_refl _) _
      (foldl_range_wellFormed _ (fun scr j hj h => backgroundBlock_wellFormed _ scr j hj h) 256
        (Nat.le_refl _) s.scr hwf)) hk hmem
  rw [Nat.zero_add] at h
  exact h

theorem clickBackground_wellFormed (rw : Char → Nat) (s s1 : State) (mx my : Int)
    (h : s.scr.WellFormed) (heq : clickBackground rw s mx my = some s1) :
    s1.scr.WellFormed := by
  unfold clickBackground at heq
  dsimp only at heq
  by_cases h1 : mx < 32 ∧ my < Int.tdiv 256 colorsPerRow
  · rw [if_pos h1] at heq
    by_cases h2 : colIndexOf mx my ≥ 0 ∧ colIndexOf mx my < 256
    · rw [if_pos h2] at heq
      by_cases h3 : s.selectedWord ≥ 0 ∧ s.selectedWord < s.words.length
      · rw [if_pos h3] at heq
        rw [← Option.some.inj heq]
        exact redrawAll_wellFormed rw _ h
      · rw [if_neg h3] at heq
        rw [← Option.some.inj heq]
        exact redrawAll_wellFormed rw _ h
    · rw [if_neg h2] at heq
      cases heq
  · rw [if_neg h1] at heq
    cases heq

theorem clickForeground_wellFormed (rw : Char → Nat) (s s1 : State) (mx my : Int)
    (h : s.scr.WellFormed) (heq : clickForeground rw s mx my = some s1) :
    s1.scr.WellFormed := by
  unfold clickForeground at heq
  dsimp only at heq
  by_cases h1 : mx ≥ 32 ∧ mx < 64 ∧ my < Int.tdiv 256 colorsPerRow
  · rw [if_pos h1] at heq
    by_cases h2 : colIndexOf (mx - 32) my ≥ 0 ∧ colIndexOf (mx - 32) my < 256
    · rw [if_pos h2] at heq
      by_cases h3 : s.selectedWord ≥ 0 ∧ s.selectedWord < s.words.length
      · rw [if_pos h3] at heq
        rw [← Option.some.inj heq]
        exact redrawAll_wellFormed rw _ h
      · rw [if_neg h3] at heq
        rw [← Option.some.inj heq]
        exact redrawAll_wellFormed rw _ h
    · rw [if_neg h2] at heq
      cases heq
  · rw [if_neg h1] at heq
    cases heq

theorem handleMouseClick_wellFormed (rw : Char → Nat) (s : State) (mx my : Int)
    (h : s.scr.WellFormed) : (handleMouseClick rw s mx my).scr.WellFormed := by
  unfold handleMouseClick
  cases hb : clickBackground rw s mx my with
  | some s1 => exact clickBackground_wellFormed rw s s1 mx my h hb
  | none =>
    cases hf : clickForeground rw s mx my with
    | some s2 => exact clickForeground_wellFormed rw s s2 mx my h hf
    | none =>
      cases findWord mx my 0 s.words with
      | some i => exact redrawAll_wellFormed rw _ h
      | none => exact redrawAll_wellFormed rw _ h

theorem handleMouseClick_of_background (rw : Char → Nat) (s s1 : State) (mx my : Int)
    (h : clickBackground rw s mx my = some s1) : handleMouseClick rw s mx my = s1 := by
  unfold handleMouseClick
  rw [h]

/-! ## redrawAll as a sequence of setCell calls -/

theorem runSetCells_append (scr : Screen) (a b : List SetCellCall) :
    runSetCells scr (a ++ b) = runSetCells (runSetCells scr a) b := by
  unfold runSetCells
  rw [List.foldl_append]

theorem runSetCells_cons (scr : Screen) (c : SetCellCall) (cs : List SetCellCall) :
    runSetCells scr (c :: cs) = runSetCells (setCell scr c.x c.y c.ch c.fg c.bg) cs := rfl

theorem runSetCells_wellFormed (calls : List SetCellCall) :
    ∀ scr : Screen, scr.WellFormed → (runSetCells scr calls).WellFormed := by
  induction calls with
  | nil => intro scr h; exact h
  | cons c cs ih =>
    intro scr h
    rw [runSetCells_cons]
    exact ih _ (setCell_wellFormed scr c.x c.y c.ch c.fg c.bg h)

theorem drawLabel_eq_run (scr : Screen) (x y : Int) (numStr : String) (fg bg : Attribute) :
    drawLabel scr x y numStr fg bg = runSetCells scr (labelCalls x y numStr fg bg) := by
  unfold drawLabel runSetCells labelCalls
  rw [List.foldl_map]

theorem foldl_eq_run_flatMap (f : Screen → Nat → Screen) (g : Nat → List SetCellCall)
    (hfg : ∀ scr j, f scr j = runSetCells scr (g j)) (l : List Nat) :
    ∀ scr : Screen, l.foldl f scr = runSetCells scr (l.flatMap g) := by
  induction l with
  | nil => intro scr; rfl
  | cons j l ih =>
    intro scr
    rw [List.foldl_cons, List.flatMap_cons, runSetCells_append, ih, hfg]

theorem fill_eq_run (x y : Int) (fg bg : Attribute) (l : List Nat) :
    ∀ scr : Screen,
      List.foldl (fun (s : Screen) (k : Int) => setCell s (x + (k + 1)) y ' ' fg bg) scr
          (do let a ← l; pure (a : Int))
        = runSetCells scr (l.map
            (fun (k : Nat) => { x := x + ((k : Int) + 1), y := y, ch := ' ', fg := fg, bg := bg })) := by
  induction l with
  | nil => intro scr; rfl
  | cons a l ih =>
    intro scr
    have hcons : (do let b ← (a :: l); pure (b : Int) : List Int)
        = (a : Int) :: (do let b ← l; pure (b : Int)) := by
      simp only [List.pure_def, List.bind_eq_flatMap, List.flatMap_cons, List.singleton_append]
    rw [hcons, List.foldl_cons, List.map_cons, runSetCells_cons, ih]

theorem drawWordRunes_eq_run (rw : Char → Nat) (y : Int) (fg bg : Attribute) (rs : List Char) :
    ∀ (scr : Screen) (x : Int),
      (drawWordRunes rw y fg bg rs scr x).1 = runSetCells scr (runeCalls rw y fg bg rs x) := by
  induction rs with
  | nil => intro scr x; rfl
  | cons r rs ih =>
    intro scr x
    simp only [drawWordRunes, runeCalls]
    rw [ih, fill_eq_run, runSetCells_append, runSetCells_cons]

theorem placeWords_eq_run (rw : Char → Nat) (sel : Int) (ws : List Word) :
    ∀ (i : Nat) (scr : Screen) (curX : Int),
      (placeWords rw sel i ws scr curX).2 = runSetCells scr (wordCalls rw sel i ws curX) := by
  induction ws with
  | nil => intro i scr curX; rfl
  | cons w ws ih =>
    intro i scr curX
    simp only [placeWords, wordCalls, drawWord_snd]
    rw [ih, runSetCells_append]
    unfold drawWord displayBackground
    rw [drawWordRunes_eq_run]

theorem redrawAll_scr_eq_run (rw : Char → Nat) (s : State) :
    (redrawAll rw s).scr = runSetCells s.scr (redrawCalls rw s) := by
  unfold redrawAll redrawCalls
  simp only []
  rw [placeWords_eq_run, runSetCells_append, runSetCells_append,
    foldl_eq_run_flatMap (backgroundBlock s.selectedForeground)
      (backgroundBlockCalls s.selectedForeground)
      (fun scr j => drawLabel_eq_run scr _ _ _ _ _),
    foldl_eq_run_flatMap (foregroundBlock s.selectedBackground)
      (foregroundBlockCalls s.selectedBackground)
      (fun scr j => drawLabel_eq_run scr _ _ _ _ _)]

/-! ## The coordinates of the calls depend on the texts only -/

theorem labelCalls_pos (x y : Int) (numStr : String) (fg bg fg1 bg1 : Attribute) :
    (labelCalls x y numStr fg bg).map callPos = (labelCalls x y numStr fg1 bg1).map callPos := by
  unfold labelCalls
  simp only [List.map_map]
  rfl

theorem runeCalls_pos (rw : Char → Nat) (y : Int) (fg bg fg1 bg1 : Attribute) (rs : List Char) :
    ∀ x : Int, (runeCalls rw y fg bg rs x).map callPos
      = (runeCalls rw y fg1 bg1 rs x).map callPos := by
  induction rs with
  | nil => intro x; rfl
  | cons r rs ih =>
    intro x
    simp only [runeCalls, List.map_append, List.map_cons, List.map_map,
      ih (x + (rw r : Int))]
    rfl

theorem wordCalls_pos (rw : Char → Nat) (sel sel1 : Int) (ws : List Word) :
    ∀ (ws1 : List Word) (i : Nat) (curX : Int),
      ws.map (fun w => w.Text) = ws1.map (fun w => w.Text) →
      (wordCalls rw sel i ws curX).map callPos = (wordCalls rw sel1 i ws1 curX).map callPos := by
  induction ws with
  | nil =>
    intro ws1 i curX h
    cases ws1 with
    | nil => rfl
    | cons a l => simp at h
  | cons w ws ih =>
    intro ws1 i curX h
    cases ws1 with
    | nil => simp at h
    | cons w1 ws1 =>
      simp only [List.map_cons, List.cons.injEq] at h
      obtain ⟨ht, hrest⟩ := h
      simp only [wordCalls, List.map_append]
      rw [ih ws1 (i + 1) _ hrest, ht,
        runeCalls_pos rw wordY w.Fg _ w1.Fg (displayBackground sel1 i w1)]

theorem flatMap_pos (g g1 : Nat → List SetCellCall)
    (h : ∀ j, (g j).map callPos = (g1 j).map callPos) (l : List Nat) :
    (l.flatMap g).map callPos = (l.flatMap g1).map callPos := by
  induction l with
  | nil => rfl
  | cons j l ih => rw [List.flatMap_cons, List.flatMap_cons, List.map_append, List.map_append, ih, h]

theorem redrawCalls_pos (rw : Char → Nat) (s t : State)
    (h : s.words.map (fun w => w.Text) = t.words.map (fun w => w.Text)) :
    (redrawCalls rw s).map callPos = (redrawCalls rw t).map callPos := by
  have hb := flatMap_pos (backgroundBlockCalls s.selectedForeground)
    (backgroundBlockCalls t.selectedForeground)
    (fun j => labelCalls_pos _ _ _ _ _ _ _) (List.range 256)
  have hf := flatMap_pos (foregroundBlockCalls s.selectedBackground)
    (foregroundBlockCalls t.selectedBackground)
    (fun j => labelCalls_pos _ _ _ _ _ _ _) (List.range 256)
  have hw := wordCalls_pos rw s.selectedWord t.selectedWord s.words t.words 0 1 h
  unfold redrawCalls
  rw [List.map_append, List.map_append, List.map_append, List.map_append, hb, hf, hw]

/-! ## Cells after a sequence of calls -/

theorem run_cell_of_eq (q1 q2 : Nat) (calls : List SetCellCall) :
    ∀ G1 G2 : Screen, G1.WellFormed → G2.WellFormed →
      cellAt G1 q1 q2 = cellAt G2 q1 q2 →
      cellAt (runSetCells G1 calls) q1 q2 = cellAt (runSetCells G2 calls) q1 q2 := by
  induction calls with
  | nil => intro G1 G2 _ _ h; exact h
  | cons c cs ih =>
    intro G1 G2 h1 h2 h
    rw [runSetCells_cons, runSetCells_cons]
    apply ih _ _ (setCell_wellFormed G1 c.x c.y c.ch c.fg c.bg h1)
      (setCell_wellFormed G2 c.x c.y c.ch c.fg c.bg h2)
    by_cases hne : c.x ≠ (q1 : Int) ∨ c.y ≠ (q2 : Int)
    · rw [cellAt_setCell_ne G1 _ _ _ _ _ q1 q2 hne, cellAt_setCell_ne G2 _ _ _ _ _ q1 q2 hne]
      exact h
    · have hx : c.x = (q1 : Int) := by omega
      have hy : c.y = (q2 : Int) := by omega
      rw [hx, hy]
      by_cases hout : (q1 : Int) < 0 ∨ (q1 : Int) ≥ screenW ∨ (q2 : Int) < 0 ∨ (q2 : Int) ≥ screenH
      · have e1 : setCell G1 (q1 : Int) (q2 : Int) c.ch c.fg c.bg = G1 := by
          unfold setCell; rw [if_pos hout]
        have e2 : setCell G2 (q1 : Int) (q2 : Int) c.ch c.fg c.bg = G2 := by
          unfold setCell; rw [if_pos hout]
        rw [e1, e2]; exact h
      · rw [cellAt_setCell_self G1 q1 q2 c.ch c.fg c.bg h1 (by omega) (by omega),
          cellAt_setCell_self G2 q1 q2 c.ch c.fg c.bg h2 (by omega) (by omega)]

/-- A cell no call inside the grid is aimed at keeps its content. -/
theorem run_cell_of_miss (q1 q2 : Nat) (calls : List SetCellCall)
    (hmiss : ((q1 : Int), (q2 : Int)) ∉ calls.map callPos ∨
      ¬ ((q1 : Int) < screenW ∧ (q2 : Int) < screenH)) :
    ∀ G : Screen, cellAt (runSetCells G calls) q1 q2 = cellAt G q1 q2 := by
  induction calls with
  | nil => intro G; rfl
  | cons c cs ih =>
    intro G
    rw [runSetCells_cons]
    have hrest : ((q1 : Int), (q2 : Int)) ∉ cs.map callPos ∨
        ¬ ((q1 : Int) < screenW ∧ (q2 : Int) < screenH) := by
      rcases hmiss with h | h
      · left
        intro hmem
        exact h (by rw [List.map_cons]; exact List.mem_cons_of_mem _ hmem)
      · right; exact h
    rw [ih hrest]
    by_cases hne : c.x ≠ (q1 : Int) ∨ c.y ≠ (q2 : Int)
    · exact cellAt_setCell_ne G _ _ _ _ _ q1 q2 hne
    · have hx : c.x = (q1 : Int) := by omega
      have hy : c.y = (q2 : Int) := by omega
      rcases hmiss with h | h
      · exfalso
        apply h
        rw [List.map_cons]
        have : callPos c = ((q1 : Int), (q2 : Int)) := by
          unfold callPos; rw [hx, hy]
        rw [this]
        exact List.mem_cons_self _ _
      · have hout : c.x < 0 ∨ c.x ≥ screenW ∨ c.y < 0 ∨ c.y ≥ screenH := by
          rw [hx, hy]; omega
        have e1 : setCell G c.x c.y c.ch c.fg c.bg = G := by
          unfold setCell; rw [if_pos hout]
        rw [e1]

/-- A cell some call inside the grid is aimed at no longer depends on the buffer
the calls started from. -/
theorem run_cell_of_hit (q1 q2 : Nat) (hq : (q1 : Int) < screenW ∧ (q2 : Int) < screenH)
    (calls : List SetCellCall) :
    ∀ G1 G2 : Screen, G1.WellFormed → G2.WellFormed →
      ((q1 : Int), (q2 : Int)) ∈ calls.map callPos →
      cellAt (runSetCells G1 calls) q1 q2 = cellAt (runSetCells G2 calls) q1 q2 := by
  induction calls with
  | nil => intro G1 G2 _ _ h; simp at h
  | cons c cs ih =>
    intro G1 G2 h1 h2 hmem
    rw [runSetCells_cons, runSetCells_cons]
    have hw1 := setCell_wellFormed G1 c.x c.y c.ch c.fg c.bg h1
    have hw2 := setCell_wellFormed G2 c.x c.y c.ch c.fg c.bg h2
    by_cases hc : callPos c = ((q1 : Int), (q2 : Int))
    · have hx : c.x = (q1 : Int) := congrArg Prod.fst hc
      have hy : c.y = (q2 : Int) := congrArg Prod.snd hc
      apply run_cell_of_eq q1 q2 cs _ _ hw1 hw2
      rw [hx, hy, cellAt_setCell_self G1 q1 q2 c.ch c.fg c.bg h1 hq.1 hq.2,
        cellAt_setCell_self G2 q1 q2 c.ch c.fg c.bg h2 hq.1 hq.2]
    · apply ih _ _ hw1 hw2
      rw [List.map_cons] at hmem
      rcases List.mem_cons.mp hmem with h | h
      · exact absurd h.symm hc
      · exact h

/-- Redrawing a buffer whose cells come from a redraw of the blank buffer with the
same coordinates gives the cells of redrawing the blank buffer. -/
theorem run_from_redrawn (calls calls1 : List SetCellCall) (G : Screen) (hG : G.WellFormed)
    (hpos : calls.map callPos = calls1.map callPos)
    (hcells : ∀ px py, cellAt G px py = cellAt (runSetCells initScreen calls1) px py)
    (q1 q2 : Nat) :
    cellAt (runSetCells G calls) q1 q2 = cellAt (runSetCells initScreen calls) q1 q2 := by
  by_cases hhit : ((q1 : Int), (q2 : Int)) ∈ calls.map callPos ∧
      ((q1 : Int) < screenW ∧ (q2 : Int) < screenH)
  · exact run_cell_of_hit q1 q2 hhit.2 calls G initScreen hG initScreen_wellFormed hhit.1
  · have hmiss : ((q1 : Int), (q2 : Int)) ∉ calls.map callPos ∨
        ¬ ((q1 : Int) < screenW ∧ (q2 : Int) < screenH) := by
      by_cases h : ((q1 : Int), (q2 : Int)) ∈ calls.map callPos
      · right; intro hq; exact hhit ⟨h, hq⟩
      · left; exact h
    have hmiss1 : ((q1 : Int), (q2 : Int)) ∉ calls1.map callPos ∨
        ¬ ((q1 : Int) < screenW ∧ (q2 : Int) < screenH) := by
      rw [← hpos]; exact hmiss
    rw [run_cell_of_miss q1 q2 calls hmiss G, run_cell_of_miss q1 q2 calls hmiss initScreen,
      hcells, run_cell_of_miss q1 q2 calls1 hmiss1 initScreen]

theorem cells_eq_of_cellAt (s1 s2 : Screen) (h1 : s1.WellFormed) (h2 : s2.WellFormed)
    (h : ∀ px py, cellAt s1 px py = cellAt s2 px py) : s1.cells = s2.cells := by
  obtain ⟨hl1, hr1⟩ := h1
  obtain ⟨hl2, hr2⟩ := h2
  apply List.ext_getElem?
  intro y
  by_cases hy : y < s1.cells.length
  · have hy2 : y < s2.cells.length := by omega
    rw [List.getElem?_eq_getElem hy, List.getElem?_eq_getElem hy2]
    congr 1
    apply List.ext_getElem?
    intro x
    have := h x y
    unfold cellAt at this
    simp only [List.getElem?_eq_getElem hy, List.getElem?_eq_getElem hy2] at this
    exact this
  · rw [List.getElem?_eq_none (by omega), List.getElem?_eq_none (by omega)]


/-! ## The buffers of a run -/

theorem modifyWord_Bg_map_Text (c : Attribute) (ws : List Word) :
    ∀ k : Nat, (modifyWord (fun w => { w with Bg := c }) k ws).map (fun w => w.Text)
      = ws.map (fun w => w.Text) := by
  induction ws with
  | nil => intro k; cases k <;> rfl
  | cons w ws ih =>
    intro k
    cases k with
    | zero => rfl
    | succ k => simp only [modifyWord, List.map_cons, ih]

theorem modifyWord_Fg_map_Text (c : Attribute) (ws : List Word) :
    ∀ k : Nat, (modifyWord (fun w => { w with Fg := c }) k ws).map (fun w => w.Text)
      = ws.map (fun w => w.Text) := by
  induction ws with
  | nil => intro k; cases k <;> rfl
  | cons w ws ih =>
    intro k
    cases k with
    | zero => rfl
    | succ k => simp only [modifyWord, List.map_cons, ih]

theorem redrawAll_map_Text (rw : Char → Nat) (s : State) :
    (redrawAll rw s).words.map (fun w => w.Text) = s.words.map (fun w => w.Text) := by
  simp only [redrawAll, placeWords_map_Text]

theorem clickBackground_eq_redrawAll (rw : Char → Nat) (s s1 : State) (mx my : Int)
    (heq : clickBackground rw s mx my = some s1) :
    ∃ t : State, s1 = redrawAll rw t ∧ t.scr = s.scr ∧
      t.words.map (fun w => w.Text) = s.words.map (fun w => w.Text) := by
  unfold clickBackground at heq
  dsimp only at heq
  by_cases h1 : mx < 32 ∧ my < Int.tdiv 256 colorsPerRow
  · rw [if_pos h1] at heq
    by_cases h2 : colIndexOf mx my ≥ 0 ∧ colIndexOf mx my < 256
    · rw [if_pos h2] at heq
      by_cases h3 : s.selectedWord ≥ 0 ∧ s.selectedWord < s.words.length
      · rw [if_pos h3] at heq
        exact ⟨_, (Option.some.inj heq).symm, rfl, modifyWord_Bg_map_Text _ _ _⟩
      · rw [if_neg h3] at heq
        exact ⟨_, (Option.some.inj heq).symm, rfl, rfl⟩
    · rw [if_neg h2] at heq
      cases heq
  · rw [if_neg h1] at heq
    cases heq

theorem clickForeground_eq_redrawAll (rw : Char → Nat) (s s1 : State) (mx my : Int)
    (heq : clickForeground rw s mx my = some s1) :
    ∃ t : State, s1 = redrawAll rw t ∧ t.scr = s.scr ∧
      t.words.map (fun w => w.Text) = s.words.map (fun w => w.Text) := by
  unfold clickForeground at heq
  dsimp only at heq
  by_cases h1 : mx ≥ 32 ∧ mx < 64 ∧ my < Int.tdiv 256 colorsPerRow
  · rw [if_pos h1] at heq
    by_cases h2 : colIndexOf (mx - 32) my ≥ 0 ∧ colIndexOf (mx - 32) my < 256
    · rw [if_pos h2] at heq
      by_cases h3 : s.selectedWord ≥ 0 ∧ s.selectedWord < s.words.length
      · rw [if_pos h3] at heq
        exact ⟨_, (Option.some.inj heq).symm, rfl, modifyWord_Fg_map_Text _ _ _⟩
      · rw [if_neg h3] at heq
        exact ⟨_, (Option.some.inj heq).symm, rfl, rfl⟩
    · rw [if_neg h2] at heq
      cases heq
  · rw [if_neg h1] at heq
    cases heq

/-- Every branch of `handleMouseClick` ends in `redrawAll`, applied to a state with
the buffer and the texts it was given. -/
theorem handleMouseClick_eq_redrawAll (rw : Char → Nat) (s : State) (mx my : Int) :
    ∃ t : State, handleMouseClick rw s mx my = redrawAll rw t ∧ t.scr = s.scr ∧
      t.words.map (fun w => w.Text) = s.words.map (fun w => w.Text) := by
  unfold handleMouseClick
  cases hb : clickBackground rw s mx my with
  | some s1 => exact clickBackground_eq_redrawAll rw s s1 mx my hb
  | none =>
    cases hf : clickForeground rw s mx my with
    | some s2 => exact clickForeground_eq_redrawAll rw s s2 mx my hf
    | none =>
      cases findWord mx my 0 s.words with
      | some i => exact ⟨_, rfl, rfl, rfl⟩
      | none => exact ⟨_, rfl, rfl, rfl⟩

theorem redraw_cells_from_blank (rw : Char → Nat) (args : List String) (t : State)
    (hG : FromBlank rw args t.scr) (ht : t.words.map (fun w => w.Text) = args) (px py : Nat) :
    cellAt (redrawAll rw t).scr px py
      = cellAt (runSetCells initScreen (redrawCalls rw t)) px py := by
  rw [redrawAll_scr_eq_run]
  obtain ⟨hwf, hblank | ⟨t1, ht1, hcells⟩⟩ := hG
  · exact run_cell_of_eq px py _ _ _ hwf initScreen_wellFormed (hblank px py)
  · exact run_from_redrawn _ (redrawCalls rw t1) t.scr hwf
      (redrawCalls_pos rw t t1 (by rw [ht, ht1])) hcells px py

theorem fromBlank_redrawAll (rw : Char → Nat) (args : List String) (t : State)
    (hG : FromBlank rw args t.scr) (ht : t.words.map (fun w => w.Text) = args) :
    FromBlank rw args (redrawAll rw t).scr :=
  ⟨redrawAll_wellFormed rw t hG.1,
    Or.inr ⟨t, ht, fun px py => redraw_cells_from_blank rw args t hG ht px py⟩⟩

theorem fromBlank_initScreen (rw : Char → Nat) (args : List String) :
    FromBlank rw args initScreen :=
  ⟨initScreen_wellFormed, Or.inl (fun _ _ => rfl)⟩

theorem initState_map_Text (args : List String) :
    (initState args).words.map (fun w => w.Text) = args := by
  unfold initState initWords
  simp only [List.map_map]
  induction args with
  | nil => rfl
  | cons a l ih => simp only [List.map_cons, Function.comp, ih]

theorem reachable_fromBlank (rw : Char → Nat) (args : List String) (s : State)
    (h : Reachable rw args s) :
    FromBlank rw args s.scr ∧ s.words.map (fun w => w.Text) = args := by
  induction h with
  | start =>
    exact ⟨fromBlank_redrawAll rw args _ (fromBlank_initScreen rw args) (initState_map_Text args),
      by rw [redrawAll_map_Text]; exact initState_map_Text args⟩
  | click s mx my _ ih =>
    obtain ⟨t, heq, hscr, htext⟩ := handleMouseClick_eq_redrawAll rw s mx my
    rw [heq]
    have ht : t.words.map (fun w => w.Text) = args := by rw [htext]; exact ih.2
    exact ⟨fromBlank_redrawAll rw args t (by rw [hscr]; exact ih.1) ht,
      by rw [redrawAll_map_Text]; exact ht⟩

theorem priorGrid_fromBlank (rw : Char → Nat) (args : List String) (scr : Screen)
    (h : PriorGrid rw args scr) : FromBlank rw args scr := by
  rcases h with h | ⟨s, hs, hscr⟩
  · rw [h]; exact fromBlank_initScreen rw args
  · rw [← hscr]; exact (reachable_fromBlank rw args s hs).1

theorem reachable_reachInv (rw : Char → Nat) (args : List String) (s : State)
    (h : Reachable rw args s) : ReachInv s.scr := by
  induction h with
  | start =>
    rw [redrawAll_scr_eq_run]
    exact reachInv_runSetCells _ _ reachInv_initScreen
  | click s mx my _ ih =>
    obtain ⟨t, heq, hscr, _⟩ := handleMouseClick_eq_redrawAll rw s mx my
    rw [heq, redrawAll_scr_eq_run, hscr]
    exact reachInv_runSetCells _ _ ih

/-! ## The row of the words in a run -/

theorem redrawAll_keeps_margin (rw : Char → Nat) (s : State) :
    cellAt (redrawAll rw s).scr 0 33 = cellAt s.scr 0 33 := by
  unfold redrawAll
  simp only []
  rw [placeWords_frame_left rw _ 0 33 _ _ _ _ (by decide)]
  rw [foldl_range_frame (foregroundBlock s.selectedBackground) 0 33 (by
    intro scr j hj
    rw [foregroundBlock_eq _ scr j hj]
    exact cellAt_label_frame scr _ _ _ _ _ _ _ _ _ (by omega)) 256 (Nat.le_refl _)]
  rw [foldl_range_frame (backgroundBlock s.selectedForeground) 0 33 (by
    intro scr j hj
    rw [backgroundBlock_eq _ scr j hj]
    exact cellAt_label_frame scr _ _ _ _ _ _ _ _ _ (by omega)) 256 (Nat.le_refl _)]

theorem reachable_margin (rw : Char → Nat) (args : List String) (s : State)
    (h : Reachable rw args s) : cellAt s.scr 0 33 = some blankCell := by
  induction h with
  | start =>
    rw [redrawAll_keeps_margin]
    exact cellAt_initScreen 0 33 (by decide) (by decide)
  | click s mx my _ ih =>
    obtain ⟨t, heq, hscr, _⟩ := handleMouseClick_eq_redrawAll rw s mx my
    rw [heq, redrawAll_keeps_margin, hscr]
    exact ih

theorem bgEscapes_rowChunksRef_cons (curFg curBg : Attribute) (c : Cell) (cs : List Cell) :
    bgEscapes (rowChunksRef curFg curBg (c :: cs))
      = (if c.Bg = curBg then [] else [toANSI256 c.Bg false])
          ++ bgEscapes (rowChunksRef c.Fg c.Bg cs) := by
  by_cases h1 : c.Fg = curFg <;> by_cases h2 : c.Bg = curBg
  · rw [rowChunksRef, if_pos h1, if_pos h2, if_pos h2]; rfl
  · rw [rowChunksRef, if_pos h1, if_neg h2, if_neg h2]; rfl
  · rw [rowChunksRef, if_neg h1, if_pos h2, if_pos h2]; rfl
  · rw [rowChunksRef, if_neg h1, if_neg h2, if_neg h2]; rfl

theorem list_of_first_four {α : Type} (l : List α) (a b c d : α)
    (h0 : l[0]? = some a) (h1 : l[1]? = some b) (h2 : l[2]? = some c) (h3 : l[3]? = some d) :
    ∃ rest, l = a :: b :: c :: d :: rest := by
  match l, h0, h1, h2, h3 with
  | x0 :: x1 :: x2 :: x3 :: rest, h0, h1, h2, h3 =>
    simp only [List.getElem?_cons_zero, List.getElem?_cons_succ, Option.some.injEq] at h0 h1 h2 h3
    exact ⟨rest, by rw [h0, h1, h2, h3]⟩
  | [], h0, _, _, _ => simp at h0
  | [_], _, h1, _, _ => simp at h1
  | [_, _], _, _, h2, _ => simp at h2
  | [_, _, _], _, _, _, h3 => simp at h3

theorem reachable_tabRun : Reachable sampleRuneWidth ["a\t", "b"] tabRun :=
  Reachable.click _ _ _ (Reachable.click _ _ _ (Reachable.click _ _ _
    (Reachable.click _ _ _ Reachable.start)))

theorem tabRun_painted :
    Painted 0 ((2 + 1) ||| AttrBold) tabRun.scr 1 33 ∧
    Painted 0 ((2 + 1) ||| AttrBold) tabRun.scr 2 33 ∧
    Painted 0 (255 + 1) tabRun.scr 3 33 := by
  have key : ∀ s1 : State, s1.scr.WellFormed →
      (redrawAll sampleRuneWidth s1).words
        = [{ Text := "a\t", Fg := 0, Bg := 3, X := 1, Y := 33, W := 2 },
           { Text := "b", Fg := 0, Bg := 256, X := 3, Y := 33, W := 1 }] →
      s1.selectedWord = 0 →
      Painted 0 ((2 + 1) ||| AttrBold) (redrawAll sampleRuneWidth s1).scr 1 33 ∧
      Painted 0 ((2 + 1) ||| AttrBold) (redrawAll sampleRuneWidth s1).scr 2 33 ∧
      Painted 0 (255 + 1) (redrawAll sampleRuneWidth s1).scr 3 33 := by
    intro s1 hwf hwords hsel
    have p1 := redrawAll_word_painted sampleRuneWidth s1 0
      { Text := "a\t", Fg := 0, Bg := 3, X := 1, Y := 33, W := 2 } 1 hwf
      (by rw [hwords]; rfl) (by decide) (by decide)
    have p2 := redrawAll_word_painted sampleRuneWidth s1 0
      { Text := "a\t", Fg := 0, Bg := 3, X := 1, Y := 33, W := 2 } 2 hwf
      (by rw [hwords]; rfl) (by decide) (by decide)
    have p3 := redrawAll_word_painted sampleRuneWidth s1 1
      { Text := "b", Fg := 0, Bg := 256, X := 3, Y := 33, W := 1 } 3 hwf
      (by rw [hwords]; rfl) (by decide) (by decide)
    rw [hsel] at p1 p2 p3
    exact ⟨p1, p2, p3⟩
  have hwf3 : (handleMouseClick sampleRuneWidth
      (handleMouseClick sampleRuneWidth
        (handleMouseClick sampleRuneWidth
          (redrawAll sampleRuneWidth (initState ["a\t", "b"])) 3 33) 31 31) 1 33).scr.WellFormed :=
    handleMouseClick_wellFormed _ _ _ _ (handleMouseClick_wellFormed _ _ _ _
      (handleMouseClick_wellFormed _ _ _ _ (redrawAll_wellFormed _ _ initScreen_wellFormed)))
  have hclick := clickBackground_of_index sampleRuneWidth
    (handleMouseClick sampleRuneWidth
      (handleMouseClick sampleRuneWidth
        (handleMouseClick sampleRuneWidth
          (redrawAll sampleRuneWidth (initState ["a\t", "b"])) 3 33) 31 31) 1 33)
    8 0 (by decide) (by decide) (by decide)
  rw [if_pos (by decide)] at hclick
  unfold tabRun
  rw [handleMouseClick_of_background _ _ _ _ _ hclick]
  exact key _ hwf3 (by decide) (by decide)


/-! ## C1: swatch clicks set the pending colours -/

/-- C1: with no word selected, a click on any of the four columns of swatch `i` of
the background panel, at `((i mod 8)*4 + dx, i / 8)`, sets `selectedBackground` to
the attribute `i + 1`, and the click 32 columns further right sets
`selectedForeground` to `i + 1`. -/
theorem click_swatch_sets_pending_colour (rw : Char → Nat) (s : State) (i dx : Nat)
    (hi : i < 256) (hdx : dx < 4) (hsel : ¬ s.HasSelection) :
    (handleMouseClick rw s (((i % 8 : Nat) : Int) * 4 + (dx : Int)) ((i / 8 : Nat) : Int)).selectedBackground
        = i + 1 ∧
    (handleMouseClick rw s (((i % 8 : Nat) : Int) * 4 + 32 + (dx : Int)) ((i / 8 : Nat) : Int)).selectedForeground
        = i + 1 := by
  have hsel1 : ¬ (s.selectedWord ≥ 0 ∧ s.selectedWord < s.words.length) := hsel
  have hidx : colIndexOf (((i % 8 : Nat) : Int) * 4 + (dx : Int)) ((i / 8 : Nat) : Int) = (i : Int) := by
    rw [colIndexOf_of_nonneg _ _ (by omega) (by omega) (by omega) (by omega)]
    omega
  constructor
  · have hb := clickBackground_of_index rw s (((i % 8 : Nat) : Int) * 4 + (dx : Int))
      ((i / 8 : Nat) : Int) (by omega) (by omega) (by rw [hidx]; omega)
    rw [if_neg hsel1, hidx] at hb
    unfold handleMouseClick
    rw [hb]
    show ((i : Int) + 1).toNat = i + 1
    omega
  · have hb := clickBackground_none_of_ge rw s (((i % 8 : Nat) : Int) * 4 + 32 + (dx : Int))
      ((i / 8 : Nat) : Int) (Or.inl (by omega))
    have hsub : ((i % 8 : Nat) : Int) * 4 + 32 + (dx : Int) - 32
        = ((i % 8 : Nat) : Int) * 4 + (dx : Int) := by omega
    have hf := clickForeground_of_index rw s (((i % 8 : Nat) : Int) * 4 + 32 + (dx : Int))
      ((i / 8 : Nat) : Int) (by omega) (by omega) (by omega) (by rw [hsub, hidx]; omega)
    rw [if_neg hsel1, hsub, hidx] at hf
    unfold handleMouseClick
    rw [hb, hf]
    show ((i : Int) + 1).toNat = i + 1
    omega

/-- Witness of C1: swatch 77, third column, from the start-up state of `hello world`. -/
theorem click_swatch_sets_pending_colour_witness :
    (handleMouseClick sampleRuneWidth (redrawAll sampleRuneWidth (initState ["hello", "world"]))
        (((77 % 8 : Nat) : Int) * 4 + ((2 : Nat) : Int)) ((77 / 8 : Nat) : Int)).selectedBackground = 77 + 1 ∧
    (handleMouseClick sampleRuneWidth (redrawAll sampleRuneWidth (initState ["hello", "world"]))
        (((77 % 8 : Nat) : Int) * 4 + 32 + ((2 : Nat) : Int)) ((77 / 8 : Nat) : Int)).selectedForeground = 77 + 1 :=
  click_swatch_sets_pending_colour sampleRuneWidth
    (redrawAll sampleRuneWidth (initState ["hello", "world"])) 77 2 (by decide) (by decide) (by decide)


/-! ## C2: frame of a swatch click -/

/-- C2: a click on a palette swatch (`0 ≤ my < 32`, `0 ≤ mx < 64`) writes the attribute
of the clicked swatch to exactly one place.  With a valid selection `k` it replaces the
`Bg` (for `mx < 32`) or the `Fg` (for `mx ≥ 32`) of `words[k]` and leaves the other
colour of that word, both colours of every other word, `selectedBackground`,
`selectedForeground` and `selectedWord` as they were.  With no valid selection it
replaces `selectedBackground` (resp. `selectedForeground`) and leaves the other
pending colour, `selectedWord` and both colours of every word as they were. -/
theorem swatch_click_frame (rw : Char → Nat) (s : State) (mx my : Int)
    (hmy : 0 ≤ my ∧ my < 32) (hmx : 0 ≤ mx ∧ mx < 64) :
      (s.HasSelection →
        (handleMouseClick rw s mx my).selectedBackground = s.selectedBackground ∧
        (handleMouseClick rw s mx my).selectedForeground = s.selectedForeground ∧
        (handleMouseClick rw s mx my).selectedWord = s.selectedWord ∧
        (mx < 32 →
          (handleMouseClick rw s mx my).words.map (fun w => w.Bg)
            = (s.words.map (fun w => w.Bg)).set s.selectedWord.toNat (swatchAttr mx my) ∧
          (handleMouseClick rw s mx my).words.map (fun w => w.Fg) = s.words.map (fun w => w.Fg)) ∧
        (32 ≤ mx →
          (handleMouseClick rw s mx my).words.map (fun w => w.Fg)
            = (s.words.map (fun w => w.Fg)).set s.selectedWord.toNat (swatchAttr mx my) ∧
          (handleMouseClick rw s mx my).words.map (fun w => w.Bg) = s.words.map (fun w => w.Bg))) ∧
      (¬ s.HasSelection →
        (handleMouseClick rw s mx my).selectedWord = s.selectedWord ∧
        (handleMouseClick rw s mx my).words.map (fun w => w.Fg) = s.words.map (fun w => w.Fg) ∧
        (handleMouseClick rw s mx my).words.map (fun w => w.Bg) = s.words.map (fun w => w.Bg) ∧
        (mx < 32 →
          (handleMouseClick rw s mx my).selectedBackground = swatchAttr mx my ∧
          (handleMouseClick rw s mx my).selectedForeground = s.selectedForeground) ∧
        (32 ≤ mx →
          (handleMouseClick rw s mx my).selectedForeground = swatchAttr mx my ∧
          (handleMouseClick rw s mx my).selectedBackground = s.selectedBackground)) := by
  by_cases hside : mx < 32
  · -- background panel
    have hidx : colIndexOf mx my = my * 8 + mx / 4 :=
      colIndexOf_of_nonneg mx my hmx.1 hside hmy.1 hmy.2
    have hb := clickBackground_of_index rw s mx my hside hmy.2 (by rw [hidx]; omega)
    have hc : (colIndexOf mx my + 1).toNat = swatchAttr mx my := by
      unfold swatchAttr; rw [hidx, if_pos hside]
    rw [hc] at hb
    refine ⟨?_, ?_⟩
    · intro hsel
      have hsel1 : s.selectedWord ≥ 0 ∧ s.selectedWord < s.words.length := hsel
      rw [if_pos hsel1] at hb
      unfold handleMouseClick
      rw [hb]
      refine ⟨rfl, rfl, rfl, ?_, ?_⟩
      · intro _
        simp only [redrawAll_map_Bg, redrawAll_map_Fg, modifyWord_Bg_map_Bg,
          modifyWord_Bg_map_Fg, and_self]
      · intro h; omega
    · intro hsel
      have hsel1 : ¬ (s.selectedWord ≥ 0 ∧ s.selectedWord < s.words.length) := hsel
      rw [if_neg hsel1] at hb
      unfold handleMouseClick
      rw [hb]
      refine ⟨rfl, ?_, ?_, ?_, ?_⟩
      · simp only [redrawAll_map_Fg]
      · simp only [redrawAll_map_Bg]
      · intro _; exact ⟨rfl, rfl⟩
      · intro h; omega
  · -- foreground panel
    have hge : 32 ≤ mx := by omega
    have hidx : colIndexOf (mx - 32) my = my * 8 + (mx - 32) / 4 :=
      colIndexOf_of_nonneg (mx - 32) my (by omega) (by omega) hmy.1 hmy.2
    have hb := clickBackground_none_of_ge rw s mx my (Or.inl hge)
    have hf := clickForeground_of_index rw s mx my hge hmx.2 hmy.2 (by rw [hidx]; omega)
    have hc : (colIndexOf (mx - 32) my + 1).toNat = swatchAttr mx my := by
      unfold swatchAttr; rw [hidx, if_neg hside]
    rw [hc] at hf
    refine ⟨?_, ?_⟩
    · intro hsel
      have hsel1 : s.selectedWord ≥ 0 ∧ s.selectedWord < s.words.length := hsel
      rw [if_pos hsel1] at hf
      unfold handleMouseClick
      rw [hb, hf]
      refine ⟨rfl, rfl, rfl, ?_, ?_⟩
      · intro h; omega
      · intro _
        simp only [redrawAll_map_Bg, redrawAll_map_Fg, modifyWord_Fg_map_Bg,
          modifyWord_Fg_map_Fg, and_self]
    · intro hsel
      have hsel1 : ¬ (s.selectedWord ≥ 0 ∧ s.selectedWord < s.words.length) := hsel
      rw [if_neg hsel1] at hf
      unfold handleMouseClick
      rw [hb, hf]
      refine ⟨rfl, ?_, ?_, ?_, ?_⟩
      · simp only [redrawAll_map_Fg]
      · simp only [redrawAll_map_Bg]
      · intro h; omega
      · intro _; exact ⟨rfl, rfl⟩

/-- Witness of C2: `hello` is selected by a click on it, then swatch 17 of the
background panel is clicked. -/
theorem swatch_click_frame_witness :
    (handleMouseClick sampleRuneWidth
      (handleMouseClick sampleRuneWidth (redrawAll sampleRuneWidth (initState ["hello", "world"])) 1 33)
      5 2).words.map (fun w => w.Bg)
      = ((handleMouseClick sampleRuneWidth
          (redrawAll sampleRuneWidth (initState ["hello", "world"])) 1 33).words.map
            (fun w => w.Bg)).set
          (handleMouseClick sampleRuneWidth
            (redrawAll sampleRuneWidth (initState ["hello", "world"])) 1 33).selectedWord.toNat
          (swatchAttr 5 2) :=
  ((((swatch_click_frame sampleRuneWidth
      (handleMouseClick sampleRuneWidth (redrawAll sampleRuneWidth (initState ["hello", "world"])) 1 33)
      5 2 (by decide) (by decide)).1 (by decide)).2.2.2.1) (by decide)).1


/-! ## C3: no repeated colour escape -/

/-- On a row whose cells carry only Default or palette attributes (`Fg ≤ 256`,
`Bg ≤ 256`) the escape strings of `toANSI256` tell the attributes apart, and the
line of the row contains no two successive equal escapes of a channel. -/
theorem no_repeated_escape_for_palette_attributes (scr : Screen) (y : Nat)
    (hwf : scr.WellFormed) (hX : scr.maxUsedX < screenW) (hY : scr.maxUsedY < screenH)
    (hy : (y : Int) ≤ scr.maxUsedY)
    (hattr : ∀ c ∈ rowCells scr y, c.Fg ≤ 256 ∧ c.Bg ≤ 256) :
    ∃ lines line, dumpLineChunks scr = some lines ∧ lines[y]? = some line ∧
      List.Chain' (fun a b => a ≠ b) (fgEscapes line) ∧
      List.Chain' (fun a b => a ≠ b) (bgEscapes line) := by
  refine ⟨_, _, dumpLineChunks_eq_ref scr hwf hX hY,
    getElem?_range_map _ _ y (by omega), ?_, ?_⟩
  · rw [fgEscapes_append_lineEnd]
    have h := fgEscapes_chain (rowCells scr y) ColorDefault ColorDefault (by decide)
      (fun c hc => (hattr c hc).1)
    exact (show List.Chain' (fun a b => a ≠ b)
      (toANSI256 ColorDefault true ::
        fgEscapes (rowChunksRef ColorDefault ColorDefault (rowCells scr y))) from h).tail
  · rw [bgEscapes_append_lineEnd]
    have h := bgEscapes_chain (rowCells scr y) ColorDefault ColorDefault (by decide)
      (fun c hc => (hattr c hc).2)
    exact (show List.Chain' (fun a b => a ≠ b)
      (toANSI256 ColorDefault false ::
        bgEscapes (rowChunksRef ColorDefault ColorDefault (rowCells scr y))) from h).tail

/-- C3, evaluation at the failing input: the run with the arguments `a<TAB>` and
`b` and the clicks `(3, 33)`, `(31, 31)`, `(1, 33)`, `(8, 0)` ends with the first
word selected, with the background of palette index 2, and the second word with
the background of index 255.  The tab has width 0, so the second word starts
right after the cells of the first.  The cells of the selected word hold
`3 | AttrBold`, the cell of the second word holds 256; both are printed as
`ESC[48;5;255m`, and the line the dump emits for row 33 contains that background
escape twice in succession. -/
theorem selected_word_repeats_background_escape :
    tabRun.selectedWord = 0 ∧
    tabRun.words.map (fun w => (w.Text, w.Bg)) = [("a\t", 2 + 1), ("b", 255 + 1)] ∧
    ∃ lines line more, dumpLineChunks tabRun.scr = some lines ∧ lines[33]? = some line ∧
      bgEscapes line = "\x1b[48;5;255m" :: "\x1b[48;5;255m" :: more ∧
      ¬ List.Chain' (fun a b => a ≠ b) (bgEscapes line) := by
  refine ⟨by decide, by decide, ?_⟩
  obtain ⟨hwf, _, hx1, _, hy1, hblank⟩ := reachable_reachInv _ _ _ reachable_tabRun
  have hc0 := reachable_margin _ _ _ reachable_tabRun
  obtain ⟨⟨c1, hc1, hf1, hb1⟩, ⟨c2, hc2, hf2, hb2⟩, ⟨c3, hc3, hf3, hb3⟩⟩ := tabRun_painted
  have hmax : 3 ≤ tabRun.scr.maxUsedX ∧ 33 ≤ tabRun.scr.maxUsedY := by
    by_contra hcon
    have hb := hblank 3 33 (by decide) (by decide) (by omega)
    rw [hc3] at hb
    rw [Option.some.inj hb] at hb3
    exact absurd hb3 (by decide)
  obtain ⟨rest, hrow⟩ := list_of_first_four (rowCells tabRun.scr 33) blankCell c1 c2 c3
    (by rw [← cellAt_eq_rowCells tabRun.scr 33 0 (by omega)]; exact hc0)
    (by rw [← cellAt_eq_rowCells tabRun.scr 33 1 (by omega)]; exact hc1)
    (by rw [← cellAt_eq_rowCells tabRun.scr 33 2 (by omega)]; exact hc2)
    (by rw [← cellAt_eq_rowCells tabRun.scr 33 3 (by omega)]; exact hc3)
  have e1 : toANSI256 c1.Bg false = "\x1b[48;5;255m" := by rw [hb1]; decide
  have e3 : toANSI256 c3.Bg false = "\x1b[48;5;255m" := by rw [hb3]; decide
  have n1 : ¬ (c1.Bg = blankCell.Bg) := by rw [hb1]; decide
  have n3 : ¬ (c3.Bg = c2.Bg) := by rw [hb3, hb2]; decide
  have hesc : bgEscapes (rowChunksRef ColorDefault ColorDefault (rowCells tabRun.scr 33)
        ++ [Chunk.lineEnd "\x1b[0m\n"])
      = "\x1b[48;5;255m" :: "\x1b[48;5;255m" :: bgEscapes (rowChunksRef c3.Fg c3.Bg rest) := by
    rw [bgEscapes_append_lineEnd, hrow, bgEscapes_rowChunksRef_cons,
      bgEscapes_rowChunksRef_cons, bgEscapes_rowChunksRef_cons, bgEscapes_rowChunksRef_cons,
      if_pos (show blankCell.Bg = ColorDefault from rfl), if_neg n1,
      if_pos (show c2.Bg = c1.Bg by rw [hb1, hb2]), if_neg n3, e1, e3]
    rfl
  refine ⟨_, _, _, dumpLineChunks_eq_ref tabRun.scr hwf hx1 hy1,
    getElem?_range_map _ _ 33 (by omega), hesc, ?_⟩
  rw [hesc]
  intro hchain
  exact (List.chain'_cons.mp hchain).1 rfl

/-! ## C4: hit-testing of words with wide glyphs -/

/-- C4, evaluation at the failing input: for the arguments `世世世` and `世` the
first word is drawn on columns 1 to 6 and recorded with `W = 9`, its length in
bytes; the second word is drawn on columns 8 and 9.  The cell `(9, 33)` is the
second column of the glyph of the second word, and the click `(9, 33)` sets
`selectedWord` to `0`, the first word. -/
theorem wide_glyph_click_selects_other_word :
    (redrawAll sampleRuneWidth (initState ["世世世", "世"])).words.map
        (fun w => (w.X, displayWidth sampleRuneWidth w.Text, w.W))
      = [(1, 6, 9), (8, 2, 3)] ∧
    cellAt (redrawAll sampleRuneWidth (initState ["世世世", "世"])).scr 8 33
      = some { Ch := '世', Fg := ColorDefault, Bg := ColorDefault } ∧
    (handleMouseClick sampleRuneWidth (redrawAll sampleRuneWidth (initState ["世世世", "世"]))
      9 33).selectedWord = 0 := by
  refine ⟨by decide, by decide!, by decide⟩


/-! ## C5: setCell stores the cell -/

/-- C5: for every in-bounds coordinate of a grid with the allocated dimensions,
after `setCell(x, y, ch, fg, bg)` the read `cells[y][x]` succeeds and yields exactly
the cell with `Ch = ch`, `Fg = fg` and `Bg = bg`, whatever the attributes are. -/
theorem setCell_then_read (scr : Screen) (x y : Int) (ch : Char) (fg bg : Attribute)
    (hwf : scr.WellFormed) (hx : 0 ≤ x ∧ x < screenW) (hy : 0 ≤ y ∧ y < screenH) :
    cellAt (setCell scr x y ch fg bg) x.toNat y.toNat = some { Ch := ch, Fg := fg, Bg := bg } := by
  obtain ⟨hlen, hrows⟩ := hwf
  have hyl : y.toNat < scr.cells.length := by omega
  have hrow : (scr.cells[y.toNat]?).getD [] = scr.cells[y.toNat] := by
    rw [List.getElem?_eq_getElem hyl]; rfl
  have hxl : x.toNat < (scr.cells[y.toNat]).length := by
    have := hrows (scr.cells[y.toNat]) (List.getElem_mem hyl)
    omega
  have hcond : ¬ (x < 0 ∨ x ≥ screenW ∨ y < 0 ∨ y ≥ screenH) := by omega
  unfold setCell
  rw [if_neg hcond]
  unfold cellAt
  simp only [hrow]
  rw [List.getElem?_set_self hyl]
  simp only []
  rw [List.getElem?_set_self hxl]

/-- Witness of C5: the cell `(3, 2)` of the grid `main` allocates, painted with a
Default foreground. -/
theorem setCell_then_read_witness :
    cellAt (setCell initScreen 3 2 'x' ColorDefault 17) (3 : Int).toNat (2 : Int).toNat
      = some { Ch := 'x', Fg := ColorDefault, Bg := 17 } :=
  setCell_then_read initScreen 3 2 'x' ColorDefault 17 initScreen_wellFormed
    (by decide) (by decide)


/-! ## C6: the snippet -/

theorem toString_pred_attr (a : Nat) (h0 : a ≠ 0) (h : a ≤ 256) :
    toString (if (a : Int) - 1 < 0 then (0 : Int)
      else if (a : Int) - 1 > 255 then 255 else (a : Int) - 1) = toString (a - 1) := by
  have h1 : ¬ ((a : Int) - 1 < 0) := by omega
  have h2 : ¬ ((a : Int) - 1 > 255) := by omega
  rw [if_neg h1, if_neg h2]
  have h3 : (a : Int) - 1 = ((a - 1 : Nat) : Int) := by omega
  rw [h3]
  rfl

theorem snippetWord_eq (snippet : String) (w : Word) (hf : w.Fg ≤ 256) (hb : w.Bg ≤ 256) :
    snippetWord snippet w = snippet ++ snippetWordSpec w := by
  unfold snippetWord snippetWordSpec
  by_cases h1 : w.Fg = ColorDefault <;> by_cases h2 : w.Bg = ColorDefault
  · simp only [h1, h2, ne_eq, not_true_eq_false, if_false, if_true, String.empty_append]
  · simp only [h1, h2, ne_eq, not_true_eq_false, not_false_eq_true, if_false, if_true,
      String.empty_append]
    rw [toString_pred_attr w.Bg h2 hb]
    simp only [String.append_assoc]
  · simp only [h1, h2, ne_eq, not_true_eq_false, not_false_eq_true, if_false, if_true,
      String.empty_append]
    rw [toString_pred_attr w.Fg h1 hf]
    simp only [String.append_assoc]
  · simp only [h1, h2, ne_eq, not_false_eq_true, if_false, if_true]
    rw [toString_pred_attr w.Fg h1 hf, toString_pred_attr w.Bg h2 hb]
    simp only [String.append_assoc]

theorem foldl_snippetWord_eq (ws : List Word) :
    ∀ snippet : String, (∀ w ∈ ws, w.Fg ≤ 256 ∧ w.Bg ≤ 256) →
      ws.foldl snippetWord snippet = snippet ++ concatAll (ws.map snippetWordSpec) := by
  induction ws with
  | nil => intro snippet _; simp [concatAll]
  | cons w ws ih =>
    intro snippet h
    have hw := h w (List.mem_cons_self _ _)
    simp only [List.foldl_cons, List.map_cons, concatAll]
    rw [ih _ (fun v hv => h v (List.mem_cons_of_mem _ hv)), snippetWord_eq snippet w hw.1 hw.2,
      String.append_assoc]

/-- C6: for words whose `Fg` and `Bg` are Default or a palette attribute in
`1..256`, `printSnippet` prints exactly two newlines, ` echo "`, then for each word
in order the token `$\x7bC<fg-1>\x7d` iff its `Fg` is not Default, the token
`$\x7bB<bg-1>\x7d` iff its `Bg` is not Default, the text and one space, and after the
last word `$\x7bRESET\x7d"` and two newlines.  A word `hello` with foreground index 5
and Default background contributes exactly `$\x7bC5\x7dhello `. -/
theorem printSnippet_eq_spec (words : List Word)
    (h : ∀ w ∈ words, w.Fg ≤ 256 ∧ w.Bg ≤ 256) :
    printSnippet words = snippetSpec words ∧
    printSnippet [{ Text := "hello", Fg := 5 + 1, Bg := ColorDefault, X := 1, Y := 33, W := 5 }]
      = "\n\n echo \"" ++ "$\x7bC5\x7dhello " ++ "$\x7bRESET\x7d\"\n\n" := by
  constructor
  · unfold printSnippet snippetSpec
    simp only [foldl_snippetWord_eq words _ h, String.append_assoc]
  · decide

/-- Witness of C6: a word with both colours, a word with neither, a word with a
background only. -/
theorem printSnippet_eq_spec_witness :
    printSnippet
        [{ Text := "ab", Fg := 256, Bg := 1, X := 1, Y := 33, W := 2 },
         { Text := "c", Fg := 0, Bg := 0, X := 4, Y := 33, W := 1 },
         { Text := "d", Fg := 0, Bg := 13, X := 6, Y := 33, W := 1 }]
      = "\n\n echo \"$\x7bC255\x7d$\x7bB0\x7dab c $\x7bB12\x7dd $\x7bRESET\x7d\"\n\n" :=
  ((printSnippet_eq_spec
      [{ Text := "ab", Fg := 256, Bg := 1, X := 1, Y := 33, W := 2 },
       { Text := "c", Fg := 0, Bg := 0, X := 4, Y := 33, W := 1 },
       { Text := "d", Fg := 0, Bg := 13, X := 6, Y := 33, W := 1 }] (by decide)).1).trans
    (by decide)


/-! ## C7: every line starts from Default and ends with the reset -/

/-- C7: for buffers of the allocated dimensions with `maxUsedX` and `maxUsedY`
inside the grid, the dump succeeds and the line it prints for a row `y ≤ maxUsedY`
is the reference line of the cells of row `y` in the columns `0..maxUsedX`, walked
with the current foreground and background both starting at Default, followed by
the full reset `ESC[0m` and a newline.  Two buffers that agree on those cells
print the same line for row `y`, whatever their other rows hold. -/
theorem dump_line_of_row (s1 s2 : State) (y : Nat)
    (hwf1 : s1.scr.WellFormed) (hX1 : s1.scr.maxUsedX < screenW)
    (hY1 : s1.scr.maxUsedY < screenH) (hy1 : (y : Int) ≤ s1.scr.maxUsedY)
    (hwf2 : s2.scr.WellFormed) (hX2 : s2.scr.maxUsedX < screenW)
    (hY2 : s2.scr.maxUsedY < screenH) (hy2 : (y : Int) ≤ s2.scr.maxUsedY)
    (hrow : rowCells s1.scr y = rowCells s2.scr y) :
    ∃ out1 out2, dumpScreenAsANSI s1 = some out1 ∧ dumpScreenAsANSI s2 = some out2 ∧
      out1[y]? = some (renderChunks (rowChunksRef ColorDefault ColorDefault (rowCells s1.scr y))
        ++ "\x1b[0m\n") ∧
      out2[y]? = out1[y]? := by
  have key : ∀ s : State, s.scr.WellFormed → s.scr.maxUsedX < screenW →
      s.scr.maxUsedY < screenH → (y : Int) ≤ s.scr.maxUsedY →
      ∃ out, dumpScreenAsANSI s = some out ∧
        out[y]? = some (renderChunks (rowChunksRef ColorDefault ColorDefault (rowCells s.scr y))
          ++ "\x1b[0m\n") := by
    intro s hwf hX hY hy
    refine ⟨_, by unfold dumpScreenAsANSI; rw [dumpLineChunks_eq_ref s.scr hwf hX hY], ?_⟩
    have hlt : y < (s.scr.maxUsedY + 1).toNat := by omega
    rw [List.getElem?_append_left (by simp only [List.length_map, List.length_range]; exact hlt),
      List.map_map, getElem?_range_map _ _ y hlt]
    simp only [Function.comp, renderChunks_append, renderChunks, Chunk.str, String.append_empty]
  obtain ⟨out1, h1, h1y⟩ := key s1 hwf1 hX1 hY1 hy1
  obtain ⟨out2, h2, h2y⟩ := key s2 hwf2 hX2 hY2 hy2
  exact ⟨out1, out2, h1, h2, h1y, by rw [h1y, h2y, hrow]⟩

/-- Witness of C7: two buffers with the same row 0 and different rows 1. -/
theorem dump_line_of_row_witness :
    ∃ out1 out2,
      dumpScreenAsANSI { scr := setCell (setCell initScreen 0 0 'a' 3 4) 0 1 'p' 9 0,
                         selectedBackground := 0, selectedForeground := 0, selectedWord := -1,
                         words := [] } = some out1 ∧
      dumpScreenAsANSI { scr := setCell (setCell initScreen 0 0 'a' 3 4) 0 1 'q' 0 8,
                         selectedBackground := 0, selectedForeground := 0, selectedWord := -1,
                         words := [] } = some out2 ∧
      out1[0]? = some (renderChunks (rowChunksRef ColorDefault ColorDefault
        (rowCells (setCell (setCell initScreen 0 0 'a' 3 4) 0 1 'p' 9 0) 0)) ++ "\x1b[0m\n") ∧
      out2[0]? = out1[0]? :=
  dump_line_of_row
    { scr := setCell (setCell initScreen 0 0 'a' 3 4) 0 1 'p' 9 0,
      selectedBackground := 0, selectedForeground := 0, selectedWord := -1, words := [] }
    { scr := setCell (setCell initScreen 0 0 'a' 3 4) 0 1 'q' 0 8,
      selectedBackground := 0, selectedForeground := 0, selectedWord := -1, words := [] }
    0
    (setCell_wellFormed _ _ _ _ _ _ (setCell_wellFormed _ _ _ _ _ _ initScreen_wellFormed))
    (by decide) (by decide) (by decide)
    (setCell_wellFormed _ _ _ _ _ _ (setCell_wellFormed _ _ _ _ _ _ initScreen_wellFormed))
    (by decide) (by decide) (by decide) (by decide!)


/-! ## C8: a click whose palette index is out of range -/

/-- C8, counterexample: `hello` is selected, then the click `(0, -1)` arrives.  It
passes the bounds test of the background panel, its palette index `-8` is out of
range, and the click is not a no-op: `selectedWord` goes from `0` to `-1`. -/
theorem out_of_range_click_changes_selection :
    ((0 : Int) < 32 ∧ (-1 : Int) < 32) ∧
    colIndexOf 0 (-1) = -8 ∧
    (handleMouseClick sampleRuneWidth
      (redrawAll sampleRuneWidth (initState ["hello", "world"])) 1 33).selectedWord = 0 ∧
    (handleMouseClick sampleRuneWidth
      (handleMouseClick sampleRuneWidth
        (redrawAll sampleRuneWidth (initState ["hello", "world"])) 1 33) 0 (-1)).selectedWord = -1 := by
  decide

/-- C8, amended: a click that passes a panel's bounds test but whose palette index
is outside `[0,256)` changes no colour (`selectedBackground`, `selectedForeground`
and the `Fg` and `Bg` of every word stay as they were), and it falls through to
the word scan: `selectedWord` becomes the first index whose recorded span contains
the click and `-1` when no word contains it, which is the case whenever every
word lies on row 33. -/
theorem out_of_range_click_effect (rw : Char → Nat) (s : State) (mx my : Int)
    (hcase : (mx < 32 ∧ my < 32 ∧ ¬ (0 ≤ colIndexOf mx my ∧ colIndexOf mx my < 256)) ∨
      (32 ≤ mx ∧ mx < 64 ∧ my < 32 ∧
        ¬ (0 ≤ colIndexOf (mx - 32) my ∧ colIndexOf (mx - 32) my < 256))) :
    (handleMouseClick rw s mx my).selectedBackground = s.selectedBackground ∧
    (handleMouseClick rw s mx my).selectedForeground = s.selectedForeground ∧
    (handleMouseClick rw s mx my).words.map (fun w => w.Fg) = s.words.map (fun w => w.Fg) ∧
    (handleMouseClick rw s mx my).words.map (fun w => w.Bg) = s.words.map (fun w => w.Bg) ∧
    (∀ (i : Nat) (w : Word), s.words[i]? = some w → w.Contains mx my →
        (∀ (j : Nat) (v : Word), j < i → s.words[j]? = some v → ¬ v.Contains mx my) →
        (handleMouseClick rw s mx my).selectedWord = (i : Int)) ∧
    ((∀ w ∈ s.words, ¬ w.Contains mx my) → (handleMouseClick rw s mx my).selectedWord = -1) ∧
    ((∀ w ∈ s.words, w.Y = 33) → (handleMouseClick rw s mx my).selectedWord = -1) := by
  have hb : clickBackground rw s mx my = none := by
    rcases hcase with ⟨_, _, hc⟩ | ⟨hx, _, _, _⟩
    · exact clickBackground_none_of_index rw s mx my hc
    · exact clickBackground_none_of_ge rw s mx my (Or.inl hx)
  have hf : clickForeground rw s mx my = none := by
    rcases hcase with ⟨hx, _, _⟩ | ⟨_, _, _, hc⟩
    · exact clickForeground_none_of_outside rw s mx my (Or.inl hx)
    · exact clickForeground_none_of_index rw s mx my hc
  have hmy : my < 32 := by
    rcases hcase with ⟨_, h, _⟩ | ⟨_, _, h, _⟩ <;> exact h
  obtain ⟨h1, h2, h3, h4, h5, h6⟩ := fallthrough_effect rw s mx my hb hf
  refine ⟨h3, h4, h5, h6, h1, h2, ?_⟩
  intro hrow
  apply h2
  intro w hw hcont
  have := hrow w hw
  have := hcont.1
  omega

/-- Witness of C8, amended: the click `(0, -1)` with `hello` selected. -/
theorem out_of_range_click_effect_witness :
    (handleMouseClick sampleRuneWidth
      (handleMouseClick sampleRuneWidth
        (redrawAll sampleRuneWidth (initState ["hello", "world"])) 1 33) 0 (-1)).selectedBackground
      = (handleMouseClick sampleRuneWidth
        (redrawAll sampleRuneWidth (initState ["hello", "world"])) 1 33).selectedBackground :=
  (out_of_range_click_effect sampleRuneWidth
    (handleMouseClick sampleRuneWidth (redrawAll sampleRuneWidth (initState ["hello", "world"])) 1 33)
    0 (-1) (Or.inl (by decide))).1

/-! ## C9: clicks outside both panels -/

/-- C9: a click outside both palette panels (`my ≥ 32` or `mx ≥ 64`), from any
state, sets `selectedWord` to the first index `i` with `my = words[i].Y` and
`words[i].X ≤ mx < words[i].X + words[i].W` if there is one and to `-1` otherwise,
and leaves `selectedBackground`, `selectedForeground` and the `Fg` and `Bg` of
every word as they were. -/
theorem click_outside_panels_selects_first_hit (rw : Char → Nat) (s : State) (mx my : Int)
    (hout : 32 ≤ my ∨ 64 ≤ mx) :
    (∀ (i : Nat) (w : Word), s.words[i]? = some w → w.Contains mx my →
        (∀ (j : Nat) (v : Word), j < i → s.words[j]? = some v → ¬ v.Contains mx my) →
        (handleMouseClick rw s mx my).selectedWord = (i : Int)) ∧
    ((∀ w ∈ s.words, ¬ w.Contains mx my) → (handleMouseClick rw s mx my).selectedWord = -1) ∧
    (handleMouseClick rw s mx my).selectedBackground = s.selectedBackground ∧
    (handleMouseClick rw s mx my).selectedForeground = s.selectedForeground ∧
    (handleMouseClick rw s mx my).words.map (fun w => w.Fg) = s.words.map (fun w => w.Fg) ∧
    (handleMouseClick rw s mx my).words.map (fun w => w.Bg) = s.words.map (fun w => w.Bg) := by
  have hb : clickBackground rw s mx my = none :=
    clickBackground_none_of_ge rw s mx my (by omega)
  have hf : clickForeground rw s mx my = none :=
    clickForeground_none_of_outside rw s mx my (by omega)
  exact fallthrough_effect rw s mx my hb hf

/-- Witness of C9: after the first redraw of `hello world`, the click `(7, 33)`
lies on `world`, the word of index 1. -/
theorem click_outside_panels_selects_first_hit_witness :
    (handleMouseClick sampleRuneWidth (redrawAll sampleRuneWidth (initState ["hello", "world"]))
      7 33).selectedWord = ((1 : Nat) : Int) :=
  (click_outside_panels_selects_first_hit sampleRuneWidth
    (redrawAll sampleRuneWidth (initState ["hello", "world"])) 7 33 (Or.inl (by decide))).1
    1 { Text := "world", Fg := 0, Bg := 0, X := 7, Y := 33, W := 5 } (by decide) (by decide)
    (by
      intro j v hj hv
      have hj0 : j = 0 := by omega
      subst hj0
      have hv0 : v = { Text := "hello", Fg := 0, Bg := 0, X := 1, Y := 33, W := 5 } := by
        have h0 : (redrawAll sampleRuneWidth (initState ["hello", "world"])).words[0]?
            = some { Text := "hello", Fg := 0, Bg := 0, X := 1, Y := 33, W := 5 } := by decide
        rw [h0] at hv
        exact (Option.some.inj hv).symm
      subst hv0
      decide)


/-! ## C10: positions of single-width words -/

/-- C10: when every glyph of every word is one display column wide, after
`redrawAll` every word has `Y = 33`, the first word has `X = 1`, and each further
word starts one column after the end of the one before it,
`words[i+1].X = words[i].X + (number of glyphs of words[i]) + 1`, and the colours
of the words are the ones they had.  For the arguments `hello world` the two words
are created with Default colours and placed at `X = 1` and `X = 7`. -/
theorem single_width_layout (rw : Char → Nat) (s : State)
    (hrw : ∀ w ∈ s.words, ∀ c ∈ w.Text.toList, rw c = 1) :
    (∀ w ∈ (redrawAll rw s).words, w.Y = 33) ∧
    (∀ w : Word, (redrawAll rw s).words[0]? = some w → w.X = 1) ∧
    (∀ (i : Nat) (a b : Word), (redrawAll rw s).words[i]? = some a →
        (redrawAll rw s).words[i + 1]? = some b → b.X = a.X + (a.Text.length : Int) + 1) ∧
    (redrawAll rw s).words.map (fun w => (w.Text, w.Fg, w.Bg))
      = s.words.map (fun w => (w.Text, w.Fg, w.Bg)) ∧
    (s.words = initWords ["hello", "world"] →
      (redrawAll rw s).words.map (fun w => (w.Text, w.X, w.Y, w.Fg, w.Bg))
        = [("hello", 1, 33, ColorDefault, ColorDefault),
           ("world", 7, 33, ColorDefault, ColorDefault)]) := by
  have hY : ∀ w ∈ (redrawAll rw s).words, w.Y = 33 := by
    intro w hw
    exact placeWords_Y rw s.selectedWord s.words 0 _ 1 w hw
  have hX0 : ∀ w : Word, (redrawAll rw s).words[0]? = some w → w.X = 1 := by
    intro w hw
    exact (placeWords_head rw s.selectedWord s.words 0 _ 1 w hw).1
  have hnext : ∀ (i : Nat) (a b : Word), (redrawAll rw s).words[i]? = some a →
        (redrawAll rw s).words[i + 1]? = some b → b.X = a.X + (a.Text.length : Int) + 1 := by
    intro i a b ha hb
    have hstep := placeWords_next rw s.selectedWord s.words 0 _ 1 i a b ha hb
    obtain ⟨w, hw, hwt⟩ := redrawAll_text_mem rw s a (List.getElem?_mem ha)
    rw [hstep, displayWidth_of_single_width rw a.Text (by rw [← hwt]; exact hrw w hw)]
  have hmap : (redrawAll rw s).words.map (fun w => (w.Text, w.Fg, w.Bg))
      = s.words.map (fun w => (w.Text, w.Fg, w.Bg)) := by
    have : ∀ (ws : List Word) (i : Nat) (scr : Screen) (curX : Int),
        (placeWords rw s.selectedWord i ws scr curX).1.map (fun w => (w.Text, w.Fg, w.Bg))
          = ws.map (fun w => (w.Text, w.Fg, w.Bg)) := by
      intro ws
      induction ws with
      | nil => intro i scr curX; rfl
      | cons w ws ih => intro i scr curX; simp only [placeWords, List.map_cons, ih]
    exact this s.words 0 _ 1
  refine ⟨hY, hX0, hnext, hmap, ?_⟩
  intro hws
  rw [hws] at hmap
  generalize hout : (redrawAll rw s).words = out at hY hX0 hnext hmap
  have hlen2 : out.length = 2 := by
    have := congrArg List.length hmap
    simpa [initWords] using this
  match out, hlen2 with
  | [a, b], _ =>
    simp only [initWords, List.map_cons, List.map_nil, List.cons.injEq, Prod.mk.injEq,
      and_true] at hmap
    obtain ⟨⟨hat, haf, hab⟩, hbt, hbf, hbb⟩ := hmap
    have ha1 := hX0 a rfl
    have hb1 := hnext 0 a b rfl rfl
    have haY := hY a (by simp)
    have hbY := hY b (by simp)
    have hlen : (a.Text.length : Int) = 5 := by rw [hat]; decide
    simp only [List.map_cons, List.map_nil, hat, haf, hab, hbt, hbf, hbb, ha1, haY, hbY, hb1,
      hlen]
    rfl

/-- Witness of C10: the first redraw of the arguments `hello world`. -/
theorem single_width_layout_witness :
    (redrawAll sampleRuneWidth (initState ["hello", "world"])).words.map
        (fun w => (w.Text, w.X, w.Y, w.Fg, w.Bg))
      = [("hello", 1, 33, ColorDefault, ColorDefault),
         ("world", 7, 33, ColorDefault, ColorDefault)] :=
  (single_width_layout sampleRuneWidth (initState ["hello", "world"]) (by decide)).2.2.2.2 rfl


/-! ## C11: the recorded width of a word -/

/-- C11, evaluation at the failing input: for the argument `世`, one glyph of two
display columns encoded in three bytes, `drawWord` advances the column from the
recorded origin `1` to `3`, two columns, and `redrawAll` records `W = 3`. -/
theorem recorded_width_is_byte_length :
    (redrawAll sampleRuneWidth (initState ["世"])).words.map
        (fun w => (w.X, w.W, displayWidth sampleRuneWidth w.Text)) = [(1, 3, 2)] ∧
    (drawWord sampleRuneWidth initScreen 1 33 "世" ColorDefault ColorDefault).2 = 1 + 2 := by
  refine ⟨by decide, by decide⟩

/-! ## C14: setCell outside the grid -/

/-- C14: for every coordinate outside the grid (`x < 0`, `x ≥ screenW`, `y < 0` or
`y ≥ screenH`) and every `ch`, `fg`, `bg`, `setCell` returns before it touches a
variable: the cell grid, `maxUsedX` and `maxUsedY` are the ones it was given. -/
theorem setCell_outside_grid (scr : Screen) (x y : Int) (ch : Char) (fg bg : Attribute)
    (hout : x < 0 ∨ x ≥ screenW ∨ y < 0 ∨ y ≥ screenH) :
    setCell scr x y ch fg bg = scr ∧
    (setCell scr x y ch fg bg).cells = scr.cells ∧
    (setCell scr x y ch fg bg).maxUsedX = scr.maxUsedX ∧
    (setCell scr x y ch fg bg).maxUsedY = scr.maxUsedY := by
  have h : setCell scr x y ch fg bg = scr := by
    unfold setCell
    rw [if_pos hout]
  rw [h]
  exact ⟨rfl, rfl, rfl, rfl⟩

/-- Witness of C14: the column `screenW` itself, one past the last column. -/
theorem setCell_outside_grid_witness :
    setCell initScreen 120 3 'x' 5 6 = initScreen ∧
    (setCell initScreen 120 3 'x' 5 6).cells = initScreen.cells ∧
    (setCell initScreen 120 3 'x' 5 6).maxUsedX = initScreen.maxUsedX ∧
    (setCell initScreen 120 3 'x' 5 6).maxUsedY = initScreen.maxUsedY :=
  setCell_outside_grid initScreen 120 3 'x' 5 6 (by decide)

/-! ## C18: the encoding of toANSI256 -/

theorem toANSI256_eq_toANSI256Spec (a : Nat) (isFg : Bool) (ha : a ≤ 256) :
    toANSI256 a isFg = toANSI256Spec a isFg := by
  unfold toANSI256 toANSI256Spec
  by_cases h0 : a = ColorDefault
  · rw [if_pos h0, if_pos h0]
  · have h0n : a ≠ 0 := h0
    rw [if_neg h0, if_neg h0]
    have h1 : ¬ ((a : Int) - 1 < 0) := by omega
    have h2 : ¬ ((a : Int) - 1 > 255) := by omega
    have h3 : (a : Int) - 1 = ((a - 1 : Nat) : Int) := by omega
    simp only [if_neg h1, if_neg h2]
    rw [h3]
    have h4 : toString (((a - 1 : Nat) : Int)) = toString (a - 1) := rfl
    rw [h4]
    cases isFg <;> simp [String.append_assoc]

/-- C18: `toANSI256` equals its reference encoding on the attributes `0..256`:
Default gives `ESC[39m` for the foreground and `ESC[49m` for the background, the
palette attribute `a` in `1..256` gives `ESC[38;5;<a-1>m` resp. `ESC[48;5;<a-1>m`
with `a-1` in decimal, and two attributes in `0..256` with the same escape on a
channel are the same attribute. -/
theorem toANSI256_reference_encoding (a b : Attribute) (isFg : Bool)
    (ha : a ≤ 256) (hb : b ≤ 256) :
    toANSI256 a isFg = toANSI256Spec a isFg ∧
    toANSI256 ColorDefault true = "\x1b[39m" ∧
    toANSI256 ColorDefault false = "\x1b[49m" ∧
    (1 ≤ a → toANSI256 a true = "\x1b[38;5;" ++ (toString (a - 1) ++ "m") ∧
             toANSI256 a false = "\x1b[48;5;" ++ (toString (a - 1) ++ "m")) ∧
    (toANSI256 a isFg = toANSI256 b isFg → a = b) := by
  refine ⟨toANSI256_eq_toANSI256Spec a isFg ha, by decide, by decide, ?_, ?_⟩
  · intro h1
    have h0 : ¬ (a = ColorDefault) := by
      intro h
      rw [h] at h1
      exact absurd h1 (by decide)
    rw [toANSI256_eq_toANSI256Spec a true ha, toANSI256_eq_toANSI256Spec a false ha]
    unfold toANSI256Spec
    simp only [if_neg h0, if_true, Bool.false_eq_true, if_false, and_self]
  · intro h
    by_contra hab
    exact toANSI256_ne a b isFg ha hb hab h

/-- Witness of C18: the attribute of the palette index 41, told apart from the
attribute of the index 255. -/
theorem toANSI256_reference_encoding_witness :
    toANSI256 42 false = toANSI256Spec 42 false ∧
    toANSI256 42 true = "\x1b[38;5;" ++ (toString (42 - 1) ++ "m") ∧
    toANSI256 42 false = "\x1b[48;5;" ++ (toString (42 - 1) ++ "m") :=
  ⟨(toANSI256_reference_encoding 42 256 false (by decide) (by decide)).1,
   (toANSI256_reference_encoding 42 256 false (by decide) (by decide)).2.2.2.1 (by decide)⟩

/-! ## C20: which clicks change a colour -/

/-- C20, evaluation at the failing input: after the first redraw of `hello world`
the click `(-3, 0)` lies left of the background panel; the truncating division
`-3 / 4` is `0`, the palette index is `0`, and `selectedBackground` changes from
Default to the attribute `1`. -/
theorem click_left_of_panel_sets_background :
    ¬ ((0 : Int) ≤ -3) ∧
    colIndexOf (-3) 0 = 0 ∧
    (redrawAll sampleRuneWidth (initState ["hello", "world"])).selectedBackground = ColorDefault ∧
    (handleMouseClick sampleRuneWidth (redrawAll sampleRuneWidth (initState ["hello", "world"]))
      (-3) 0).selectedBackground = 1 := by
  decide


/-! ## C12: the labels of the swatches -/

theorem spacePaddedLabel_getElem : ∀ i : Nat, i < 256 → ∀ dx : Nat, dx < 3 →
    (spacePaddedLabel i)[dx]? = some (labelChar i dx) := by
  decide!

/-- C12, counterexample: the zero-padded label of swatch 7 is `007`, and after the
first redraw of `hello world` the first label cell of background swatch 7, at
column `(7 mod 8)*4` of row `7 / 8`, holds a space. -/
theorem label_cell_holds_space :
    zeroPaddedLabel 7 = ['0', '0', '7'] ∧
    cellAt (redrawAll sampleRuneWidth (initState ["hello", "world"])).scr ((7 % 8) * 4 + 0) (7 / 8)
      = some { Ch := ' ', Fg := ColorDefault, Bg := 7 + 1 } := by
  refine ⟨by decide, ?_⟩
  rw [redrawAll_background_swatch sampleRuneWidth (initState ["hello", "world"]) 7 0
    initScreen_wellFormed (by decide) (by decide)]
  decide

/-- C12, amended: on a grid of the allocated dimensions, for every palette index
`i` in `[0,256)` and `dx = 0,1,2`, after `redrawAll` the label cell
`((i mod 8)*4 + dx, i / 8)` of the background panel and the label cell
`((i mod 8)*4 + 32 + dx, i / 8)` of the foreground panel both hold character `dx`
of the decimal representation of `i` padded on the left with spaces to three
characters. -/
theorem label_cells_space_padded (rw : Char → Nat) (s : State) (i dx : Nat)
    (hwf : s.scr.WellFormed) (hi : i < 256) (hdx : dx < 3) :
    ∃ cb cf : Cell,
      cellAt (redrawAll rw s).scr ((i % 8) * 4 + dx) (i / 8) = some cb ∧
      cellAt (redrawAll rw s).scr ((i % 8) * 4 + 32 + dx) (i / 8) = some cf ∧
      (spacePaddedLabel i)[dx]? = some cb.Ch ∧
      (spacePaddedLabel i)[dx]? = some cf.Ch ∧
      (spacePaddedLabel i).length = 3 := by
  refine ⟨_, _, redrawAll_background_swatch rw s i dx hwf hi hdx,
    redrawAll_foreground_swatch rw s i dx hwf hi hdx,
    spacePaddedLabel_getElem i hi dx hdx, spacePaddedLabel_getElem i hi dx hdx, ?_⟩
  have hlen : ∀ j : Nat, j < 256 → (spacePaddedLabel j).length = 3 := by decide!
  exact hlen i hi

/-- Witness of C12, amended: the last label cell of swatch 7 after the first redraw
of `hello world`. -/
theorem label_cells_space_padded_witness :
    ∃ cb cf : Cell,
      cellAt (redrawAll sampleRuneWidth (initState ["hello", "world"])).scr
        ((7 % 8) * 4 + 2) (7 / 8) = some cb ∧
      cellAt (redrawAll sampleRuneWidth (initState ["hello", "world"])).scr
        ((7 % 8) * 4 + 32 + 2) (7 / 8) = some cf ∧
      (spacePaddedLabel 7)[2]? = some cb.Ch ∧
      (spacePaddedLabel 7)[2]? = some cf.Ch ∧
      (spacePaddedLabel 7).length = 3 :=
  label_cells_space_padded sampleRuneWidth (initState ["hello", "world"]) 7 2
    initScreen_wellFormed (by decide) (by decide)

/-! ## C15: the colours of the swatches -/

/-- C15: on a grid of the allocated dimensions, for every selection state, word
list and palette index `i` in `[0,256)`, after `redrawAll` each label cell
`((i mod 8)*4 + dx, i / 8)`, `dx = 0,1,2`, of background swatch `i` has `Bg = i + 1`
and `Fg = selectedForeground`, and each label cell `((i mod 8)*4 + 32 + dx, i / 8)` of
foreground swatch `i` has `Fg = i + 1` and `Bg = selectedBackground`. -/
theorem swatch_cell_colours (rw : Char → Nat) (s : State) (i dx : Nat)
    (hwf : s.scr.WellFormed) (hi : i < 256) (hdx : dx < 3) :
    (∃ cb : Cell, cellAt (redrawAll rw s).scr ((i % 8) * 4 + dx) (i / 8) = some cb ∧
      cb.Bg = i + 1 ∧ cb.Fg = s.selectedForeground) ∧
    (∃ cf : Cell, cellAt (redrawAll rw s).scr ((i % 8) * 4 + 32 + dx) (i / 8) = some cf ∧
      cf.Fg = i + 1 ∧ cf.Bg = s.selectedBackground) :=
  ⟨⟨_, redrawAll_background_swatch rw s i dx hwf hi hdx, rfl, rfl⟩,
   ⟨_, redrawAll_foreground_swatch rw s i dx hwf hi hdx, rfl, rfl⟩⟩

/-- Witness of C15: swatch 200 with the pending colours 9 and 13 and a selected
word. -/
theorem swatch_cell_colours_witness :
    (∃ cb : Cell, cellAt (redrawAll sampleRuneWidth
        { scr := initScreen, selectedBackground := 9, selectedForeground := 13,
          selectedWord := 0, words := initWords ["hello"] }).scr
        ((200 % 8) * 4 + 1) (200 / 8) = some cb ∧
      cb.Bg = 200 + 1 ∧ cb.Fg = 13) ∧
    (∃ cf : Cell, cellAt (redrawAll sampleRuneWidth
        { scr := initScreen, selectedBackground := 9, selectedForeground := 13,
          selectedWord := 0, words := initWords ["hello"] }).scr
        ((200 % 8) * 4 + 32 + 1) (200 / 8) = some cf ∧
      cf.Fg = 200 + 1 ∧ cf.Bg = 9) :=
  swatch_cell_colours sampleRuneWidth
    { scr := initScreen, selectedBackground := 9, selectedForeground := 13,
      selectedWord := 0, words := initWords ["hello"] } 200 1
    initScreen_wellFormed (by decide) (by decide)


/-! ## C13: the redrawn grid is a function of the state -/

/-- C13: let `s1` and `s2` carry the same selection state and the same words, with
the texts of the run's arguments, and let the cell grid of each be a grid
`redrawAll` can find in that run (the blank grid of `main` or the grid of a
reached state).  Then `redrawAll` yields the same cell grid and the same words
for both, and that grid is the one painting the swatches and the words on the
blank grid gives: no cell content from before the redraw survives it. -/
theorem redraw_is_function_of_state (rw : Char → Nat) (args : List String) (s1 s2 : State)
    (hg1 : PriorGrid rw args s1.scr) (hg2 : PriorGrid rw args s2.scr)
    (ht : s1.words.map (fun w => w.Text) = args)
    (hsb : s1.selectedBackground = s2.selectedBackground)
    (hsf : s1.selectedForeground = s2.selectedForeground)
    (hsw : s1.selectedWord = s2.selectedWord) (hw : s1.words = s2.words) :
    (redrawAll rw s1).scr.cells = (redrawAll rw s2).scr.cells ∧
    (redrawAll rw s1).scr.cells = (runSetCells initScreen (redrawCalls rw s1)).cells ∧
    (redrawAll rw s1).words = (redrawAll rw s2).words := by
  have hf1 := priorGrid_fromBlank rw args s1.scr hg1
  have hf2 := priorGrid_fromBlank rw args s2.scr hg2
  have ht2 : s2.words.map (fun w => w.Text) = args := by rw [← hw]; exact ht
  have hcalls : redrawCalls rw s1 = redrawCalls rw s2 := by
    unfold redrawCalls
    rw [hsb, hsf, hsw, hw]
  have hc1 : (redrawAll rw s1).scr.cells = (runSetCells initScreen (redrawCalls rw s1)).cells :=
    cells_eq_of_cellAt _ _ (redrawAll_wellFormed rw s1 hf1.1)
      (runSetCells_wellFormed _ _ initScreen_wellFormed)
      (fun px py => redraw_cells_from_blank rw args s1 hf1 ht px py)
  have hc2 : (redrawAll rw s2).scr.cells = (runSetCells initScreen (redrawCalls rw s2)).cells :=
    cells_eq_of_cellAt _ _ (redrawAll_wellFormed rw s2 hf2.1)
      (runSetCells_wellFormed _ _ initScreen_wellFormed)
      (fun px py => redraw_cells_from_blank rw args s2 hf2 ht2 px py)
  refine ⟨by rw [hc1, hc2, hcalls], hc1, ?_⟩
  have e1 : (redrawAll rw s1).words = (placeWords rw s1.selectedWord 0 s1.words
      ((List.range 256).foldl (foregroundBlock s1.selectedBackground)
        ((List.range 256).foldl (backgroundBlock s1.selectedForeground) s1.scr)) 1).1 := rfl
  have e2 : (redrawAll rw s2).words = (placeWords rw s2.selectedWord 0 s2.words
      ((List.range 256).foldl (foregroundBlock s2.selectedBackground)
        ((List.range 256).foldl (backgroundBlock s2.selectedForeground) s2.scr)) 1).1 := rfl
  rw [e1, e2, hsw, hw]
  exact placeWords_fst_eq rw _ _ _ _ _ _

/-- Witness of C13: the word `hello` with nothing selected, redrawn once on the
blank grid and once on the grid left by a click on swatch 0, which painted the
foreground panel with the background attribute 1. -/
theorem redraw_is_function_of_state_witness :
    (redrawAll sampleRuneWidth (initState ["hello"])).scr.cells
      = (redrawAll sampleRuneWidth
          { scr := (handleMouseClick sampleRuneWidth
              (redrawAll sampleRuneWidth (initState ["hello"])) 0 0).scr,
            selectedBackground := ColorDefault, selectedForeground := ColorDefault,
            selectedWord := -1, words := initWords ["hello"] }).scr.cells :=
  (redraw_is_function_of_state sampleRuneWidth ["hello"] (initState ["hello"])
    { scr := (handleMouseClick sampleRuneWidth
        (redrawAll sampleRuneWidth (initState ["hello"])) 0 0).scr,
      selectedBackground := ColorDefault, selectedForeground := ColorDefault,
      selectedWord := -1, words := initWords ["hello"] }
    (Or.inl rfl)
    (Or.inr ⟨_, Reachable.click _ 0 0 Reachable.start, rfl⟩)
    (initState_map_Text ["hello"]) rfl rfl rfl rfl).1

/-! ## C16: the colours of the words -/

/-- C16: on a grid of the allocated dimensions, for every word list and selection
state, every in-bounds cell `drawWord` writes for a word during `redrawAll` ends up
with the word's `Fg` as foreground; its background is `termbox.ColorBlue` when the
word is the selected one and its `Bg` is Default, `Bg | AttrBold` when it is the
selected one and its `Bg` is not Default, and exactly the word's `Bg` when it is
not the selected one.  The stored `Fg` and `Bg` of every word stay as they were. -/
theorem word_cells_colours (rw : Char → Nat) (s : State) (k : Nat) (w : Word) (col : Int)
    (hwf : s.scr.WellFormed) (hk : (redrawAll rw s).words[k]? = some w)
    (hmem : col ∈ drawnColumns rw w.X w.Text.toList) (hcol : 0 ≤ col ∧ col < screenW) :
    (∃ c : Cell, cellAt (redrawAll rw s).scr col.toNat 33 = some c ∧ c.Fg = w.Fg ∧
      ((k : Int) = s.selectedWord → w.Bg = ColorDefault → c.Bg = ColorBlue) ∧
      ((k : Int) = s.selectedWord → w.Bg ≠ ColorDefault → c.Bg = w.Bg ||| AttrBold) ∧
      ((k : Int) ≠ s.selectedWord → c.Bg = w.Bg)) ∧
    (redrawAll rw s).words.map (fun v => v.Fg) = s.words.map (fun v => v.Fg) ∧
    (redrawAll rw s).words.map (fun v => v.Bg) = s.words.map (fun v => v.Bg) := by
  obtain ⟨c, hc, hf, hb⟩ := redrawAll_word_painted rw s k w col hwf hk hmem hcol
  refine ⟨⟨c, hc, hf, ?_, ?_, ?_⟩, redrawAll_map_Fg rw s, redrawAll_map_Bg rw s⟩
  · intro hsel hdef
    rw [hb]; unfold displayBackground; rw [if_pos hsel, if_pos hdef]
  · intro hsel hdef
    rw [hb]; unfold displayBackground; rw [if_pos hsel, if_neg hdef]
  · intro hsel
    rw [hb]; unfold displayBackground; rw [if_neg hsel]

/-- Witness of C16: the selected word `hello` with the background attribute 3,
second column. -/
theorem word_cells_colours_witness :
    ∃ c : Cell, cellAt (redrawAll sampleRuneWidth
        { scr := initScreen, selectedBackground := 0, selectedForeground := 0, selectedWord := 0,
          words := [{ Text := "hello", Fg := 7, Bg := 3, X := 0, Y := 0, W := 0 }] }).scr
        (2 : Int).toNat 33 = some c ∧ c.Fg = 7 ∧ c.Bg = 3 ||| AttrBold :=
  match (word_cells_colours sampleRuneWidth
      { scr := initScreen, selectedBackground := 0, selectedForeground := 0, selectedWord := 0,
        words := [{ Text := "hello", Fg := 7, Bg := 3, X := 0, Y := 0, W := 0 }] }
      0 { Text := "hello", Fg := 7, Bg := 3, X := 1, Y := 33, W := 5 } 2
      initScreen_wellFormed (by decide) (by decide) (by decide)).1 with
  | ⟨c, hc, hf, _, hb, _⟩ => ⟨c, hc, hf, hb (by decide) (by decide)⟩

/-! ## C17: the exported background of the selected word -/

/-- C17, evaluation at the failing input: the argument `hello` is selected by the
click `(1, 33)` and given the background of palette index 2 by the click `(8, 0)`.
The word then stores `Bg = 3`, its cell `(1, 33)` holds the background
`3 | AttrBold`, and `toANSI256` turns that attribute into `ESC[48;5;255m`, while the
stored background is `ESC[48;5;2m`.  The bold bit sends every palette attribute to
the escape of colour 255. -/
theorem bold_background_exported_as_255 :
    (handleMouseClick sampleRuneWidth
      (handleMouseClick sampleRuneWidth (redrawAll sampleRuneWidth (initState ["hello"])) 1 33)
      8 0).selectedWord = 0 ∧
    (handleMouseClick sampleRuneWidth
      (handleMouseClick sampleRuneWidth (redrawAll sampleRuneWidth (initState ["hello"])) 1 33)
      8 0).words.map (fun w => (w.Text, w.Bg)) = [("hello", 2 + 1)] ∧
    (∃ c : Cell, cellAt (handleMouseClick sampleRuneWidth
        (handleMouseClick sampleRuneWidth (redrawAll sampleRuneWidth (initState ["hello"])) 1 33)
        8 0).scr 1 33 = some c ∧
      c.Bg = (2 + 1) ||| AttrBold ∧ toANSI256 c.Bg false = "\x1b[48;5;255m") ∧
    toANSI256 (2 + 1) false = "\x1b[48;5;2m" ∧
    (∀ i : Nat, i < 256 → toANSI256 ((i + 1) ||| AttrBold) false = "\x1b[48;5;255m") := by
  refine ⟨by decide, by decide, ?_, by decide, by decide!⟩
  have hwf1 : (handleMouseClick sampleRuneWidth
      (redrawAll sampleRuneWidth (initState ["hello"])) 1 33).scr.WellFormed :=
    handleMouseClick_wellFormed _ _ _ _ (redrawAll_wellFormed _ _ initScreen_wellFormed)
  have hclick := clickBackground_of_index sampleRuneWidth
    (handleMouseClick sampleRuneWidth (redrawAll sampleRuneWidth (initState ["hello"])) 1 33)
    8 0 (by decide) (by decide) (by decide)
  rw [if_pos (by decide)] at hclick
  rw [handleMouseClick_of_background _ _ _ _ _ hclick]
  have key : ∀ s1 : State, s1.scr.WellFormed →
      (redrawAll sampleRuneWidth s1).words[0]?
        = some { Text := "hello", Fg := 0, Bg := 3, X := 1, Y := 33, W := 5 } →
      s1.selectedWord = 0 →
      ∃ c : Cell, cellAt (redrawAll sampleRuneWidth s1).scr 1 33 = some c ∧
        c.Bg = (2 + 1) ||| AttrBold ∧ toANSI256 c.Bg false = "\x1b[48;5;255m" := by
    intro s1 hwf hk hsel
    obtain ⟨c, hc, _, hb⟩ := redrawAll_word_painted sampleRuneWidth s1 0
      { Text := "hello", Fg := 0, Bg := 3, X := 1, Y := 33, W := 5 } 1 hwf hk
      (by decide) (by decide)
    rw [hsel] at hb
    refine ⟨c, hc, ?_, ?_⟩
    · rw [hb]; decide
    · rw [hb]; decide
  exact key _ hwf1 (by decide) (by decide)

/-! ## C19: the running maxima bound the written region -/

/-- C19: in the buffer reached from the blank grid of `main` by any sequence of
`setCell` calls, `maxUsedX` is the largest column and `maxUsedY` the largest row
among the calls inside the grid (`0` if there is none), both lie inside the grid,
every cell to the right of column `maxUsedX` or below row `maxUsedY` is still the
blank Default cell, every read `cells[y][x]` with `x ≤ maxUsedX` and `y ≤ maxUsedY`
is inside the grid, and the loops of `dumpScreenAsANSI` run without a failing
read. -/
theorem maxima_bound_written_region (calls : List SetCellCall) :
    (runSetCells initScreen calls).maxUsedX = largestWrittenColumn calls ∧
    (runSetCells initScreen calls).maxUsedY = largestWrittenRow calls ∧
    (0 ≤ (runSetCells initScreen calls).maxUsedX ∧
      (runSetCells initScreen calls).maxUsedX < screenW) ∧
    (0 ≤ (runSetCells initScreen calls).maxUsedY ∧
      (runSetCells initScreen calls).maxUsedY < screenH) ∧
    (∀ px py : Nat, (px : Int) < screenW → (py : Int) < screenH →
      ((runSetCells initScreen calls).maxUsedX < px ∨
        (runSetCells initScreen calls).maxUsedY < py) →
      cellAt (runSetCells initScreen calls) px py = some blankCell) ∧
    (∀ px py : Nat, (px : Int) ≤ (runSetCells initScreen calls).maxUsedX →
      (py : Int) ≤ (runSetCells initScreen calls).maxUsedY →
      ∃ c, cellAt (runSetCells initScreen calls) px py = some c) ∧
    (∃ lines, dumpLineChunks (runSetCells initScreen calls) = some lines ∧
      (lines.length : Int) = (runSetCells initScreen calls).maxUsedY + 1) := by
  obtain ⟨hwf, hx0, hx1, hy0, hy1, hblank⟩ := reachInv_runSetCells calls initScreen reachInv_initScreen
  refine ⟨runSetCells_maxUsedX calls initScreen, runSetCells_maxUsedY calls initScreen,
    ⟨hx0, hx1⟩, ⟨hy0, hy1⟩, hblank, ?_, ?_⟩
  · intro px py hpx hpy
    exact cellAt_isSome_of_wellFormed _ px py hwf (by omega) (by omega)
  · refine ⟨_, dumpLineChunks_eq_ref _ hwf hx1 hy1, ?_⟩
    simp only [List.length_map, List.length_range]
    omega

/-- Witness of C19: three calls, the second one outside the grid. -/
theorem maxima_bound_written_region_witness :
    (runSetCells initScreen
      [{ x := 7, y := 2, ch := 'a', fg := 1, bg := 2 },
       { x := 120, y := 49, ch := 'b', fg := 3, bg := 4 },
       { x := 3, y := 5, ch := 'c', fg := 5, bg := 6 }]).maxUsedX = 7 ∧
    (runSetCells initScreen
      [{ x := 7, y := 2, ch := 'a', fg := 1, bg := 2 },
       { x := 120, y := 49, ch := 'b', fg := 3, bg := 4 },
       { x := 3, y := 5, ch := 'c', fg := 5, bg := 6 }]).maxUsedY = 5 :=
  ⟨(maxima_bound_written_region
      [{ x := 7, y := 2, ch := 'a', fg := 1, bg := 2 },
       { x := 120, y := 49, ch := 'b', fg := 3, bg := 4 },
       { x := 3, y := 5, ch := 'c', fg := 5, bg := 6 }]).1.trans (by decide),
   (maxima_bound_written_region
      [{ x := 7, y := 2, ch := 'a', fg := 1, bg := 2 },
       { x := 120, y := 49, ch := 'b', fg := 3, bg := 4 },
       { x := 3, y := 5, ch := 'c', fg := 5, bg := 6 }]).2.1.trans (by decide)⟩


end CliStringDesigner
